import Mathlib

/-
Verification of the bone-manipulation core of cc_blender_tools (bones.py)
against its natural-language specification.

The Python module is shallowly embedded: bone names are `String`, bone stores
are lists of bone records (Blender keeps bones in an ordered, name-addressable
collection; indexing by name returns the first — in Blender the unique — bone
with that name), 3-D vectors are rational triples, the host's mode switches
(`utils.edit_mode_to`, `utils.set_mode`) are boolean parameters recording
whether the host granted the switch, and Python exceptions are the `.error`
branch of `Except`.  String primitives (`startswith`, slicing, `in`) are
modelled on `String.data` character lists.
-/

/-! ### Python string primitives -/

/-- Python str.startswith, on the character-list view of a string. -/
def py_startswith (s pre : String) : Bool :=
  pre.data.isPrefixOf s.data

/-- Python slicing s[n:], dropping the first n characters. -/
def py_drop (s : String) (n : Nat) : String :=
  String.mk (s.data.drop n)

/-- Python slicing s[a:b] with int bounds: negative indices count from the
end, and both bounds are clamped to the string. -/
def pySlice (s : String) (a b : Int) : String :=
  let n : Int := (s.data.length : Int)
  let lo : Nat := (if a < 0 then max (n + a) 0 else min a n).toNat
  let hi : Nat := (if b < 0 then max (n + b) 0 else min b n).toNat
  String.mk ((s.data.take hi).drop lo)

/-- Index of the first occurrence of a character in a character list. -/
def findChar : List Char → Char → Option Nat
  | [], _ => none
  | c :: cs, q => if c == q then some 0 else (findChar cs q).map (fun i => i + 1)

/-- Modelled from the spec: bones.py calls the host helper
utils.safe_index_of, whose source is not part of this module; per the spec's
"narrow interface" it returns the index of the first occurrence of the
character at or after position start, or -1 when there is none (start is
non-negative at every call site in this module). -/
def safe_index_of (s : String) (q : Char) (start : Int) : Int :=
  match findChar (s.data.drop start.toNat) q with
  | some i => (start.toNat : Int) + (i : Int)
  | none => -1

/-! ### Name Resolver: prefix-insensitive bone-name equality (bones.py 25-34) -/

/-- Embeds cmp_rl_bone_names: both sides are normalised by stripping at most
one leading "RL_" (checked first) or "CC_Base_" and then compared. -/
def cmp_rl_bone_names (name bone_name : String) : Bool :=
  let bone_name :=
    if py_startswith bone_name "RL_" then py_drop bone_name 3
    else if py_startswith bone_name "CC_Base_" then py_drop bone_name 8
    else bone_name
  let name :=
    if py_startswith name "RL_" then py_drop name 3
    else if py_startswith name "CC_Base_" then py_drop name 8
    else name
  name == bone_name

/-! ### Driver data paths (bones.py 581-583 and 647-652) -/

/-- Embeds get_data_path_pose_bone_property: the fixed textual pattern
addressing a custom property on a pose bone. -/
def get_data_path_pose_bone_property (pose_bone_name variable_name : String) : String :=
  "pose.bones[\"" ++ pose_bone_name ++ "\"][\"" ++ variable_name ++ "\"]"

/-- Embeds get_bone_name_from_data_path: recover the bone name between the
first pair of double quotes of a pose-bone data path. -/
def get_bone_name_from_data_path (data_path : String) : Option String :=
  if py_startswith data_path "pose.bones[\"" then
    let start := safe_index_of data_path '"' 0 + 1
    let stop := safe_index_of data_path '"' start
    some (pySlice data_path start stop)
  else none

/-! ### Data model: vectors, matrices, bone records -/

/-- A 3-D vector with rational coordinates (mathutils.Vector). -/
structure V3 where
  x : ℚ
  y : ℚ
  z : ℚ
  deriving DecidableEq

def vadd (a b : V3) : V3 := ⟨a.x + b.x, a.y + b.y, a.z + b.z⟩

def vsub (a b : V3) : V3 := ⟨a.x - b.x, a.y - b.y, a.z - b.z⟩

def vscale (q : ℚ) (a : V3) : V3 := ⟨q * a.x, q * a.y, q * a.z⟩

def vdivNat (a : V3) (n : Nat) : V3 := ⟨a.x / (n : ℚ), a.y / (n : ℚ), a.z / (n : ℚ)⟩

def v0 : V3 := ⟨0, 0, 0⟩

def vZ : V3 := ⟨0, 0, 1⟩

/-- An affine world transform (the action of a 4x4 matrix_world on points). -/
structure Mat34 where
  m00 : ℚ
  m01 : ℚ
  m02 : ℚ
  m10 : ℚ
  m11 : ℚ
  m12 : ℚ
  m20 : ℚ
  m21 : ℚ
  m22 : ℚ
  tx : ℚ
  ty : ℚ
  tz : ℚ
  deriving DecidableEq

def Mat34.apply (m : Mat34) (v : V3) : V3 :=
  ⟨m.m00 * v.x + m.m01 * v.y + m.m02 * v.z + m.tx,
   m.m10 * v.x + m.m11 * v.y + m.m12 * v.z + m.ty,
   m.m20 * v.x + m.m21 * v.y + m.m22 * v.z + m.tz⟩

def idMat : Mat34 := ⟨1, 0, 0, 0, 1, 0, 0, 0, 1, 0, 0, 0⟩

/-- One bone of rig.data.edit_bones.  The parent pointer is recorded by name
(bone names are unique within a Blender armature). -/
structure EditBone where
  name : String
  head : V3
  tail : V3
  head_radius : ℚ
  tail_radius : ℚ
  roll : ℚ
  parent : Option String
  layers : List Bool
  deriving DecidableEq

/-- One bone of rig.data.bones (the object-mode view synchronised from the
edit bones when edit mode is left). -/
structure DataBone where
  name : String
  parent : Option String
  layers : List Bool
  deriving DecidableEq

/-- One pose-bone constraint; fields not assigned by a builder keep the host
defaults recorded here. -/
structure Constraint where
  ctype : String
  target : String
  subtarget : String
  head_tail : ℚ := 0
  mix_mode : String := ""
  target_space : String := "WORLD"
  owner_space : String := "WORLD"
  influence : ℚ := 1
  use_x : Bool := true
  use_y : Bool := true
  use_z : Bool := true
  invert_x : Bool := false
  invert_y : Bool := false
  invert_z : Bool := false
  distance : ℚ := 0
  limit_mode : String := ""
  track_axis : String := ""
  deriving DecidableEq

/-- One bone of rig.pose.bones. -/
structure PoseBone where
  name : String
  constraints : List Constraint
  deriving DecidableEq

/-- A Python exception escaping a function. -/
inductive PyErr where
  | keyError (key : String)
  | attributeError
  | zeroDivisionError
  deriving DecidableEq

/-- A message sent to the logging sink. -/
inductive LogMsg where
  | error (msg : String)
  | warn (msg : String)
  | info (msg : String)
  deriving DecidableEq

/-! ### Name Resolver lookups (bones.py 37-118) -/

/-- Embeds get_edit_bone for a single requested name (the Python function
also accepts a list of candidates; only the single-string branch is used by
the operations modelled here).  An empty name is falsy in Python, and
indexing a Blender bone collection by name returns the first (unique) bone
with that name. -/
def get_edit_bone (bones : List EditBone) (name : String) : Option EditBone :=
  if name = "" then none
  else bones.find? (fun b => b.name == name)

/-- Embeds get_rl_edit_bone: exact match first, then the name stripped of a
leading "CC_Base_", then stripped of a further leading "RL_" (the source
reassigns name, so the "RL_" test sees the already CC-stripped name). -/
def get_rl_edit_bone (bones : List EditBone) (name : String) : Option EditBone :=
  if name = "" then none
  else match bones.find? (fun b => b.name == name) with
  | some b => some b
  | none =>
    let n1 := if py_startswith name "CC_Base_" then py_drop name 8 else name
    match (if py_startswith name "CC_Base_"
        then bones.find? (fun b => b.name == n1) else none) with
    | some b => some b
    | none =>
      let n2 := if py_startswith n1 "RL_" then py_drop n1 3 else n1
      if py_startswith n1 "RL_" then bones.find? (fun b => b.name == n2) else none

/-- Embeds get_rl_bone (same algorithm on rig.data.bones). -/
def get_rl_bone (bones : List DataBone) (name : String) : Option DataBone :=
  if name = "" then none
  else match bones.find? (fun b => b.name == name) with
  | some b => some b
  | none =>
    let n1 := if py_startswith name "CC_Base_" then py_drop name 8 else name
    match (if py_startswith name "CC_Base_"
        then bones.find? (fun b => b.name == n1) else none) with
    | some b => some b
    | none =>
      let n2 := if py_startswith n1 "RL_" then py_drop n1 3 else n1
      if py_startswith n1 "RL_" then bones.find? (fun b => b.name == n2) else none

/-- Embeds get_rl_pose_bone (same algorithm on rig.pose.bones). -/
def get_rl_pose_bone (bones : List PoseBone) (name : String) : Option PoseBone :=
  if name = "" then none
  else match bones.find? (fun b => b.name == name) with
  | some b => some b
  | none =>
    let n1 := if py_startswith name "CC_Base_" then py_drop name 8 else name
    match (if py_startswith name "CC_Base_"
        then bones.find? (fun b => b.name == n1) else none) with
    | some b => some b
    | none =>
      let n2 := if py_startswith n1 "RL_" then py_drop n1 3 else n1
      if py_startswith n1 "RL_" then bones.find? (fun b => b.name == n2) else none

/-! ### rename_bone (bones.py 121-127) -/

def renameFirst (from_name to_name : String) : List EditBone → List EditBone
  | [] => []
  | b :: rest =>
    if b.name == from_name then { b with name := to_name } :: rest
    else b :: renameFirst from_name to_name rest

/-- Embeds rename_bone: on a granted edit-mode switch, the bone found for
from_name is renamed only when to_name is not already taken; otherwise an
error is logged and nothing changes.  Returns the bone list and the log. -/
def rename_bone (editOk : Bool) (bones : List EditBone) (from_name to_name : String) :
    List EditBone × List LogMsg :=
  if editOk then
    if (get_edit_bone bones from_name).isSome
        && !(bones.any (fun b => b.name == to_name)) then
      (renameFirst from_name to_name bones, [])
    else
      (bones, [LogMsg.error ("Bone " ++ from_name ++ " cannot be renamed as "
        ++ to_name ++ " already exists in rig!")])
  else (bones, [])

/-! ### Layer assignment (bones.py 421-430) -/

/-- Result of the loop for l in range(0, 32): layers[l] = (l == layer). -/
def oneHot32 (layer : Nat) : List Bool :=
  (List.range 32).map (fun l => l == layer)

def setEditLayersFirst (bone_name : String) (layer : Nat) : List EditBone → List EditBone
  | [] => []
  | b :: rest =>
    if b.name == bone_name then { b with layers := oneHot32 layer } :: rest
    else b :: setEditLayersFirst bone_name layer rest

/-- Embeds set_edit_bone_layer: rig.data.edit_bones[bone_name] is indexed
with no guard, so a missing bone raises KeyError. -/
def set_edit_bone_layer (bones : List EditBone) (bone_name : String) (layer : Nat) :
    Except PyErr (List EditBone) :=
  match bones.find? (fun b => b.name == bone_name) with
  | none => .error (.keyError bone_name)
  | some _ => .ok (setEditLayersFirst bone_name layer bones)

/-! ### copy_position (bones.py 433-454) -/

def setHeadTailFirst (bone_name : String) (h t : V3) : List EditBone → List EditBone
  | [] => []
  | b :: rest =>
    if b.name == bone_name then { b with head := h, tail := t } :: rest
    else b :: setHeadTailFirst bone_name h t rest

/-- Embeds copy_position.  The mathutils normalized() operation involves a
square root and is passed in as the host function normalized.  The source
accumulates head/tail sums over the copy_bones present in the rig and then
divides by their count num with no emptiness guard: num = 0 raises
ZeroDivisionError. -/
def copy_position (editOk : Bool) (normalized : V3 → V3) (bones : List EditBone)
    (bone : String) (copy_bones : List String) (offset : ℚ) :
    Except PyErr (Option EditBone × List EditBone) :=
  if editOk then
    if bones.any (fun b => b.name == bone) then
      let acc := copy_bones.foldl
        (fun (acc : V3 × V3 × Nat) copy_name =>
          match bones.find? (fun b => b.name == copy_name) with
          | some copy_bone =>
            let dir := normalized (vsub copy_bone.tail copy_bone.head)
            (vadd acc.1 (vadd copy_bone.head (vscale offset dir)),
             vadd acc.2.1 (vadd copy_bone.tail (vscale offset dir)),
             acc.2.2 + 1)
          | none => acc)
        (v0, v0, 0)
      if acc.2.2 = 0 then .error .zeroDivisionError
      else
        let head_position := vdivNat acc.1 acc.2.2
        let tail_position := vdivNat acc.2.1 acc.2.2
        match bones.find? (fun b => b.name == bone) with
        | some edit_bone =>
          .ok (some { edit_bone with head := head_position, tail := tail_position },
            setHeadTailFirst bone head_position tail_position bones)
        | none => .ok (none, bones)
    else .ok (none, bones)
  else .ok (none, bones)

/-! ### Constraint builders (bones.py 306-405): each body runs inside a
try/except that logs and returns None, modelled by a catch wrapper -/

def addConstraintFirst (bone_name : String) (c : Constraint) : List PoseBone → List PoseBone
  | [] => []
  | b :: rest =>
    if b.name == bone_name then { b with constraints := b.constraints ++ [c] } :: rest
    else b :: addConstraintFirst bone_name c rest

def add_copy_transforms_constraint_body (objOk : Bool) (from_rig : String)
    (to_bones : List PoseBone) (from_bone to_bone : String) (influence : ℚ) (space : String) :
    Except PyErr (Option Constraint × List PoseBone) :=
  if objOk then
    match to_bones.find? (fun b => b.name == to_bone) with
    | none => .error (.keyError to_bone)
    | some _ =>
      let c : Constraint :=
        { ctype := "COPY_TRANSFORMS", target := from_rig,
          subtarget := from_bone, head_tail := 0, mix_mode := "REPLACE",
          target_space := space, owner_space := space, influence := influence }
      .ok (some c, addConstraintFirst to_bone c to_bones)
  else .ok (none, to_bones)

/-- Embeds add_copy_transforms_constraint with its try/except: any exception
from the body is caught, logged and turned into a None return. -/
def add_copy_transforms_constraint (objOk : Bool) (from_rig : String)
    (to_bones : List PoseBone) (from_bone to_bone : String) (influence : ℚ) (space : String) :
    Except PyErr (Option Constraint × List PoseBone) :=
  match add_copy_transforms_constraint_body objOk from_rig to_bones from_bone to_bone
      influence space with
  | .ok r => .ok r
  | .error _ => .ok (none, to_bones)

def add_copy_rotation_constraint_body (objOk : Bool) (from_rig : String)
    (to_bones : List PoseBone) (from_bone to_bone : String) (influence : ℚ) (space : String) :
    Except PyErr (Option Constraint × List PoseBone) :=
  if objOk then
    match to_bones.find? (fun b => b.name == to_bone) with
    | none => .error (.keyError to_bone)
    | some _ =>
      let c : Constraint :=
        { ctype := "COPY_ROTATION", target := from_rig,
          subtarget := from_bone, use_x := true, use_y := true, use_z := true,
          invert_x := false, invert_y := false, invert_z := false,
          mix_mode := "REPLACE", target_space := space,
          owner_space := if space == "LOCAL_OWNER_ORIENT" then "LOCAL" else space,
          influence := influence }
      .ok (some c, addConstraintFirst to_bone c to_bones)
  else .ok (none, to_bones)

/-- Embeds add_copy_rotation_constraint with its try/except. -/
def add_copy_rotation_constraint (objOk : Bool) (from_rig : String)
    (to_bones : List PoseBone) (from_bone to_bone : String) (influence : ℚ) (space : String) :
    Except PyErr (Option Constraint × List PoseBone) :=
  match add_copy_rotation_constraint_body objOk from_rig to_bones from_bone to_bone
      influence space with
  | .ok r => .ok r
  | .error _ => .ok (none, to_bones)

def add_copy_location_constraint_body (objOk : Bool) (from_rig : String)
    (to_bones : List PoseBone) (from_bone to_bone : String) (influence : ℚ) (space : String) :
    Except PyErr (Option Constraint × List PoseBone) :=
  if objOk then
    match to_bones.find? (fun b => b.name == to_bone) with
    | none => .error (.keyError to_bone)
    | some _ =>
      let c : Constraint :=
        { ctype := "COPY_LOCATION", target := from_rig,
          subtarget := from_bone, use_x := true, use_y := true, use_z := true,
          invert_x := false, invert_y := false, invert_z := false,
          target_space := space,
          owner_space := if space == "LOCAL_OWNER_ORIENT" then "LOCAL" else space,
          influence := influence }
      .ok (some c, addConstraintFirst to_bone c to_bones)
  else .ok (none, to_bones)

/-- Embeds add_copy_location_constraint with its try/except. -/
def add_copy_location_constraint (objOk : Bool) (from_rig : String)
    (to_bones : List PoseBone) (from_bone to_bone : String) (influence : ℚ) (space : String) :
    Except PyErr (Option Constraint × List PoseBone) :=
  match add_copy_location_constraint_body objOk from_rig to_bones from_bone to_bone
      influence space with
  | .ok r => .ok r
  | .error _ => .ok (none, to_bones)

def add_damped_track_constraint_body (objOk : Bool) (rig : String)
    (pose_bones : List PoseBone) (bone_name target_name : String) (influence : ℚ) :
    Except PyErr (Option Constraint × List PoseBone) :=
  if objOk then
    match pose_bones.find? (fun b => b.name == bone_name) with
    | none => .error (.keyError bone_name)
    | some _ =>
      let c : Constraint :=
        { ctype := "DAMPED_TRACK", target := rig,
          subtarget := target_name, head_tail := 0, track_axis := "TRACK_Y",
          influence := influence }
      .ok (some c, addConstraintFirst bone_name c pose_bones)
  else .ok (none, pose_bones)

/-- Embeds add_damped_track_constraint with its try/except. -/
def add_damped_track_constraint (objOk : Bool) (rig : String)
    (pose_bones : List PoseBone) (bone_name target_name : String) (influence : ℚ) :
    Except PyErr (Option Constraint × List PoseBone) :=
  match add_damped_track_constraint_body objOk rig pose_bones bone_name target_name
      influence with
  | .ok r => .ok r
  | .error _ => .ok (none, pose_bones)

def add_limit_distance_constraint_body (objOk : Bool) (from_rig : String)
    (to_bones : List PoseBone) (from_bone to_bone : String) (dist influence : ℚ)
    (space : String) : Except PyErr (Option Constraint × List PoseBone) :=
  if objOk then
    match to_bones.find? (fun b => b.name == to_bone) with
    | none => .error (.keyError to_bone)
    | some _ =>
      let c : Constraint :=
        { ctype := "LIMIT_DISTANCE", target := from_rig,
          subtarget := from_bone, distance := dist,
          limit_mode := "LIMITDIST_ONSURFACE", target_space := space,
          owner_space := space, influence := influence }
      .ok (some c, addConstraintFirst to_bone c to_bones)
  else .ok (none, to_bones)

/-- Embeds add_limit_distance_constraint with its try/except. -/
def add_limit_distance_constraint (objOk : Bool) (from_rig : String)
    (to_bones : List PoseBone) (from_bone to_bone : String) (dist influence : ℚ)
    (space : String) : Except PyErr (Option Constraint × List PoseBone) :=
  match add_limit_distance_constraint_body objOk from_rig to_bones from_bone to_bone
      dist influence space with
  | .ok r => .ok r
  | .error _ => .ok (none, to_bones)

/-! ### Accessory Bone Classifier (bones.py 700-734) -/

/-- A bone of a data-bone store together with its upward parent chain
(immediate parent first, then its parent, ...).  The Python code walks
bone.parent pointers; the chain records the names met on that walk. -/
structure ChainBone where
  name : String
  ancestors : List String
  deriving DecidableEq

/-- Embeds bone_mapping_contains_bone: whether some mapping entry's
destination name (entry index 1) matches the bone name under
cmp_rl_bone_names. -/
def bone_mapping_contains_bone (bone_mappings : List (String × String))
    (bone_name : String) : Bool :=
  bone_mappings.any (fun bone_mapping => cmp_rl_bone_names bone_mapping.2 bone_name)

/-- Embeds get_accessory_root_bone: if the bone itself is mapped the loop is
skipped and None is returned; otherwise the walk up the parent chain keeps
overwriting root with every unmapped ancestor met.  Returns the name of the
resulting bone. -/
def get_accessory_root_bone (bone_mappings : List (String × String))
    (bone : ChainBone) : Option String :=
  if bone_mapping_contains_bone bone_mappings bone.name then none
  else bone.ancestors.foldl
    (fun root p =>
      if !(bone_mapping_contains_bone bone_mappings p) then some p else root)
    none

/-- Embeds bone_parent_in_list: whether any ancestor name (exact match) is in
the given list. -/
def bone_parent_in_list (bone_list : List String) (bone : ChainBone) : Bool :=
  bone.ancestors.any (fun a => bone_list.contains a)

/-- Embeds find_accessory_bones: iterate the rig's bones in order and record
as accessory roots those that are unmapped, not yet recorded, and have no
ancestor in the recorded list. -/
def find_accessory_bones (bone_mappings : List (String × String))
    (rig : List ChainBone) : List String :=
  rig.foldl
    (fun accessory_bones bone =>
      if !(bone_mapping_contains_bone bone_mappings bone.name)
          && !(accessory_bones.contains bone.name)
          && !(bone_parent_in_list accessory_bones bone)
      then accessory_bones ++ [bone.name]
      else accessory_bones)
    []

/-! ### Bone Tree Copier (bones.py 224-303) -/

mutual

/-- A source-rig subtree: a bone with its edit data and its children in
collection order (the recursion of get_edit_bone_subtree_defs descends
through bone.children). -/
inductive BoneTree where
  | node (name : String) (head : V3) (tail : V3) (head_radius : ℚ)
      (tail_radius : ℚ) (roll : ℚ) (children : BoneForest)

/-- Children list of a BoneTree (a mutual inductive instead of a nested List
so that the traversal recursion is structural). -/
inductive BoneForest where
  | nil
  | cons (t : BoneTree) (rest : BoneForest)

end

def BoneTree.rootName : BoneTree → String
  | .node n _ _ _ _ _ _ => n

/-- One serialized bone record of the subtree definition list: name, world
head, world tail, radii, roll, parent name (bone_data[0..6]). -/
structure BoneDef where
  name : String
  head : V3
  tail : V3
  head_radius : ℚ
  tail_radius : ℚ
  roll : ℚ
  parent_name : String
  deriving DecidableEq

mutual

/-- Embeds the recursive body of get_edit_bone_subtree_defs: record the
visited bone (head and tail taken through the world matrix, parent by name)
and then recurse through the children in order, accumulating pre-order. -/
def subtreeDefs (world : Mat34) : BoneTree → String → List BoneDef
  | .node n h t hr tr r cs, parent_name =>
    ⟨n, world.apply h, world.apply t, hr, tr, r, parent_name⟩
      :: subtreeForestDefs world cs n

def subtreeForestDefs (world : Mat34) : BoneForest → String → List BoneDef
  | .nil, _ => []
  | .cons t rest, parent_name =>
    subtreeDefs world t parent_name ++ subtreeForestDefs world rest parent_name

end

/-- Embeds get_edit_bone_subtree_defs at top level: the traversal runs only
when the edit-mode switch is granted and the root bone has a parent
("bone must have a parent for it to be a sub-tree"); otherwise the
accumulator stays empty. -/
def get_edit_bone_subtree_defs (editOk : Bool) (world : Mat34) (bone : BoneTree)
    (parent : Option String) : List BoneDef :=
  match editOk, parent with
  | true, some p => subtreeDefs world bone p
  | _, _ => []

def ebNames (bones : List EditBone) : List String := bones.map (fun b => b.name)

def listMax (l : List Nat) : Nat := l.foldr max 0

/-- Fresh-name behavior of rig.data.edit_bones.new(name): the host keeps bone
names unique and renames a colliding new bone (Blender appends a numeric
suffix; the source re-reads bone.name "in case Blender has changed it").  The
exact renaming scheme is host detail; it is modelled by a suffix long enough
to be collision-free. -/
def freshName (names : List String) (n : String) : String :=
  if names.contains n then
    n ++ "." ++ String.mk (List.replicate (listMax (names.map String.length) + 1) '0')
  else n

/-- The rename applied to a serialized bone name in the destination loop:
"if name == cc3_name: name = dst_name". -/
def renameDef (cc3_name dst_name n : String) : String :=
  if n == cc3_name then dst_name else n

/-- Embeds the destination creation loop of copy_rl_edit_bone_subtree: for
each bone definition, create the bone (renaming the designated root), set its
edit layers to the single requested layer, then resolve the recorded parent
name against the current destination collection (which already holds the new
bone) and set the parent when found.  Returns the final bone list and the
(definition, created-name) pairs in order. -/
def copyLoop (cc3_name dst_name : String) (layer : Nat) :
    List BoneDef → List EditBone → List EditBone × List (BoneDef × String)
  | [], bones => (bones, [])
  | d :: rest, bones =>
    let nm := if d.name == cc3_name then dst_name else d.name
    let created := freshName (ebNames bones) nm
    let newB : EditBone :=
      { name := created, head := d.head, tail := d.tail,
        head_radius := d.head_radius, tail_radius := d.tail_radius,
        roll := d.roll, parent := none, layers := oneHot32 layer }
    let parent_bone := get_edit_bone (bones ++ [newB]) d.parent_name
    let newB2 := { newB with parent := parent_bone.map (fun b => b.name) }
    let r := copyLoop cc3_name dst_name layer rest (bones ++ [newB2])
    (r.1, (d, created) :: r.2)

def setBoneParentFirst (bone_name parent_name : String) : List EditBone → List EditBone
  | [] => []
  | b :: rest =>
    if b.name == bone_name then { b with parent := some parent_name } :: rest
    else b :: setBoneParentFirst bone_name parent_name rest

/-- Object-mode view of an edit bone after the mode switch syncs the
armature. -/
def toDataBone (b : EditBone) : DataBone := ⟨b.name, b.parent, b.layers⟩

/-- Embeds the pose-layer assignment rig.data.bones[name].layers[l] = (l ==
layer).  The Python indexing raises KeyError on a missing name; in the copy
flow every looked-up name was just created, so the missing case cannot occur
and is modelled as a no-op. -/
def setDataLayersFirst (bone_name : String) (layer : Nat) : List DataBone → List DataBone
  | [] => []
  | b :: rest =>
    if b.name == bone_name then { b with layers := oneHot32 layer } :: rest
    else b :: setDataLayersFirst bone_name layer rest

/-- The destination rig: its edit-bone store and its object-mode data-bone
store (synchronised from the edit bones when edit mode is left). -/
structure DstRig where
  edit_bones : List EditBone
  data_bones : List DataBone
  deriving DecidableEq

/-- Embeds copy_rl_edit_bone_subtree.  cc3Ok, dstOk, objOk are the host's
answers to the three mode switches; srcLookup is the result of
get_edit_bone(cc3_rig, cc3_name) paired with that bone's parent name (the
traversal requires the parent; a None bone makes the Python body raise
AttributeError on bone.parent).  After the creation loop, the copied root
(looked up as dst_name) is re-parented to dst_parent_name when both resolve;
finally, in object mode, the data bones are synchronised and the created
bones' data layers are set to the same single layer. -/
def copy_rl_edit_bone_subtree (cc3Ok dstOk objOk : Bool) (world : Mat34)
    (srcLookup : Option (BoneTree × Option String)) (dst : DstRig)
    (cc3_name dst_name dst_parent_name : String) (layer : Nat) :
    Except PyErr (Option (List (BoneDef × Option String)) × DstRig) :=
  if cc3Ok then
    match srcLookup with
    | none => .error .attributeError
    | some (t, parentOpt) =>
      let defs := get_edit_bone_subtree_defs true world t parentOpt
      if dstOk then
        let r := copyLoop cc3_name dst_name layer defs dst.edit_bones
        let bones2 :=
          match get_edit_bone r.1 dst_name, get_edit_bone r.1 dst_parent_name with
          | some _, some pb => setBoneParentFirst dst_name pb.name r.1
          | _, _ => r.1
        if objOk then
          let data2 := r.2.foldl (fun ds pr => setDataLayersFirst pr.2 layer ds)
            (bones2.map toDataBone)
          .ok (some (r.2.map (fun pr => (pr.1, some pr.2))), ⟨bones2, data2⟩)
        else
          .ok (some (r.2.map (fun pr => (pr.1, some pr.2))), ⟨bones2, dst.data_bones⟩)
      else
        .ok (some (defs.map (fun d => (d, none))), dst)
  else .ok (none, dst)

/-- Expected destination bone for one serialized definition in the
collision-free case: the root's source name is replaced by dst_name, the
parent resolves to the like-named created bone except that a recorded parent
equal to the (renamed) source root name resolves to nothing. -/
def expectedBone (cc3_name dst_name : String) (layer : Nat) (d : BoneDef) : EditBone :=
  { name := renameDef cc3_name dst_name d.name, head := d.head, tail := d.tail,
    head_radius := d.head_radius, tail_radius := d.tail_radius, roll := d.roll,
    parent := if d.parent_name == cc3_name then none else some d.parent_name,
    layers := oneHot32 layer }

/-- Each serialized definition's recorded parent name is either the given
root parent or the name of an earlier definition (pre-order property of the
traversal). -/
def parentsLinked (avail : List String) : List BoneDef → Prop
  | [] => True
  | d :: rest => d.parent_name ∈ avail ∧ parentsLinked (d.name :: avail) rest

/-! ### Concrete sample data used by witnesses and counterexamples -/

def mkEB (n : String) (p : Option String) : EditBone :=
  { name := n, head := v0, tail := vZ, head_radius := 1, tail_radius := 1,
    roll := 0, parent := p, layers := oneHot32 0 }

def mkPB (n : String) : PoseBone := ⟨n, []⟩

def mkDB (n : String) : DataBone := ⟨n, none, oneHot32 0⟩

/-- Children of the sample subtree root: a single child bone B. -/
def sampleForest : BoneForest :=
  .cons (.node "B" vZ ⟨0, 0, 2⟩ 1 1 0 .nil) .nil

/-- Source subtree A with one child B (A is the subtree root, parented to R
in the source rig). -/
def sampleTree : BoneTree :=
  .node "A" v0 vZ 1 1 0 sampleForest

/-- Destination rig holding only the intended parent bone P. -/
def sampleDst : DstRig := ⟨[mkEB "P" none], [mkDB "P"]⟩

/-- Rig for the classifier example: a mapped Head, an accessory chain under
it, and a free-standing hair chain. -/
def sampleRigC6 : List ChainBone :=
  [⟨"Head", []⟩, ⟨"HeadAccessory", ["Head"]⟩,
   ⟨"AccessoryTip", ["HeadAccessory", "Head"]⟩,
   ⟨"Hair1", []⟩, ⟨"Hair2", ["Hair1"]⟩]

/-- Mapping table whose only destination entry is CC_Base_Head: it covers the
bone named Head through the prefix-insensitive comparison. -/
def sampleMappings : List (String × String) := [("head", "CC_Base_Head")]

/-! ### Helper lemmas about the string primitives -/

theorem findChar_append_not_mem (l1 l2 : List Char) (q : Char) (h : q ∉ l1) :
    findChar (l1 ++ l2) q = (findChar l2 q).map (fun i => i + l1.length) := by
  induction l1 with
  | nil => simp [Option.map_id_fun]
  | cons c cs ih =>
    have hcq : (c == q) = false := by
      simp only [beq_eq_false_iff_ne]
      intro hc
      exact h (by simp [hc])
    have hq : q ∉ cs := fun hm => h (List.mem_cons_of_mem _ hm)
    simp only [List.cons_append, findChar, hcq, Bool.false_eq_true, if_false, List.append_eq]
    rw [ih hq, Option.map_map]
    cases findChar l2 q with
    | none => rfl
    | some i =>
      show some (i + cs.length + 1) = some (i + (cs.length + 1))
      rw [Nat.add_assoc]

theorem findChar_split (l1 l2 : List Char) (q : Char) (h : q ∉ l1) :
    findChar (l1 ++ q :: l2) q = some l1.length := by
  rw [findChar_append_not_mem l1 _ q h]
  simp [findChar]

theorem py_startswith_append (pre s : String) : py_startswith (pre ++ s) pre = true := by
  simp only [py_startswith, String.data_append]
  exact List.isPrefixOf_iff_prefix.mpr ⟨s.data, rfl⟩

theorem py_drop_rl (rest : String) : py_drop ("RL_" ++ rest) 3 = rest := rfl

theorem py_drop_cc (rest : String) : py_drop ("CC_Base_" ++ rest) 8 = rest := rfl

theorem py_startswith_cc_rl (rest : String) :
    py_startswith ("CC_Base_" ++ rest) "RL_" = false := rfl

/-- C2, counterexample: the claim asserts that for every name N carrying a
prefix, cmp_rl_bone_names(N, S) is true where S strips that one prefix.  For
N = "RL_RL_a" the stripped form is S = "RL_a"; the predicate strips N once to
"RL_a" but also strips S itself to "a", so the comparison fails. -/
theorem c2_cmp_stripped_counterexample :
    ("RL_RL_a" : String) = "RL_" ++ "RL_a" ∧
    cmp_rl_bone_names "RL_RL_a" "RL_a" = false := by
  decide

/-- C2, amended: for every name N = prefix ++ rest whose stripped form rest
does not itself begin with "RL_" or "CC_Base_", cmp_rl_bone_names N rest is
true (both for the "RL_" and the "CC_Base_" prefix). -/
theorem c2_cmp_stripped_amended (rest : String)
    (h1 : py_startswith rest "RL_" = false)
    (h2 : py_startswith rest "CC_Base_" = false) :
    cmp_rl_bone_names ("RL_" ++ rest) rest = true ∧
    cmp_rl_bone_names ("CC_Base_" ++ rest) rest = true := by
  constructor
  · simp only [cmp_rl_bone_names, h1, h2, Bool.false_eq_true, if_false,
      py_startswith_append "RL_" rest, if_true, py_drop_rl, beq_self_eq_true]
  · simp only [cmp_rl_bone_names, h1, h2, Bool.false_eq_true, if_false,
      py_startswith_cc_rl, py_startswith_append "CC_Base_" rest, if_true,
      py_drop_cc, beq_self_eq_true]

/-- C2 witness: concrete instance of the amended theorem at rest = "a". -/
theorem c2_cmp_stripped_witness :
    (py_startswith "a" "RL_" = false ∧ py_startswith "a" "CC_Base_" = false) ∧
    (cmp_rl_bone_names ("RL_" ++ "a") "a" = true ∧
     cmp_rl_bone_names ("CC_Base_" ++ "a") "a" = true) :=
  ⟨⟨by decide, by decide⟩, c2_cmp_stripped_amended "a" (by decide) (by decide)⟩

theorem int_toNat_natCast (n : Nat) : ((n : Int)).toNat = n := by omega

theorem pySlice_extract (l1 l2 l3 : List Char) :
    pySlice (String.mk ((l1 ++ l2) ++ l3)) (l1.length : Int)
      ((l1.length : Int) + (l2.length : Int)) = String.mk l2 := by
  simp only [pySlice]
  rw [if_neg (by omega : ¬ ((l1.length : Int) < 0)),
      if_neg (by omega : ¬ ((l1.length : Int) + (l2.length : Int) < 0))]
  have hmin1 : min ((l1.length : Int)) (((String.mk ((l1 ++ l2) ++ l3)).data.length : Int))
      = (l1.length : Int) := by
    simp only [List.length_append]
    omega
  have hmin2 : min ((l1.length : Int) + (l2.length : Int))
      (((String.mk ((l1 ++ l2) ++ l3)).data.length : Int))
      = (l1.length : Int) + (l2.length : Int) := by
    simp only [List.length_append]
    omega
  rw [hmin1, hmin2]
  have e2 : ((l1.length : Int) + (l2.length : Int)).toNat = (l1 ++ l2).length := by
    simp only [List.length_append]
    omega
  rw [int_toNat_natCast, e2]
  show String.mk ((((l1 ++ l2) ++ l3).take ((l1 ++ l2).length)).drop l1.length) = String.mk l2
  rw [List.take_left, List.drop_left]

/-- C10: for every bone name B containing no double quote and every property
name P, extracting the bone name from the constructed data path round-trips:
get_bone_name_from_data_path (get_data_path_pose_bone_property B P) = B. -/
theorem c10_data_path_roundtrip (b p : String) (h : '"' ∉ b.data) :
    get_bone_name_from_data_path (get_data_path_pose_bone_property b p) = some b := by
  have hdp : (get_data_path_pose_bone_property b p).data
      = "pose.bones[\"".data ++ (b.data ++ ('"' :: ("][\"".data ++ (p.data ++ "\"]".data)))) := by
    simp only [get_data_path_pose_bone_property, String.data_append, List.append_assoc]
    rfl
  have h1 : py_startswith (get_data_path_pose_bone_property b p) "pose.bones[\"" = true := by
    simp only [py_startswith]
    rw [hdp]
    exact List.isPrefixOf_iff_prefix.mpr ⟨_, rfl⟩
  have hf1 : findChar (get_data_path_pose_bone_property b p).data '"' = some 11 := by
    rw [hdp]
    show findChar ("pose.bones[".data
        ++ '"' :: (b.data ++ ('"' :: ("][\"".data ++ (p.data ++ "\"]".data))))) '"' = some 11
    rw [findChar_split _ _ _ (by decide)]
    decide
  have hs1 : safe_index_of (get_data_path_pose_bone_property b p) '"' 0 = 11 := by
    unfold safe_index_of
    rw [show ((0 : Int)).toNat = 0 from rfl, List.drop_zero, hf1]
    decide
  have hdrop12 : (get_data_path_pose_bone_property b p).data.drop (((11 : Int) + 1)).toNat
      = b.data ++ ('"' :: ("][\"".data ++ (p.data ++ "\"]".data))) := by
    rw [hdp]
    show ("pose.bones[\"".data
        ++ (b.data ++ ('"' :: ("][\"".data ++ (p.data ++ "\"]".data))))).drop
          ("pose.bones[\"".data.length)
      = b.data ++ ('"' :: ("][\"".data ++ (p.data ++ "\"]".data)))
    exact List.drop_left _ _
  have hs2 : safe_index_of (get_data_path_pose_bone_property b p) '"' ((11 : Int) + 1)
      = ("pose.bones[\"".data.length : Int) + (b.data.length : Int) := by
    unfold safe_index_of
    rw [hdrop12, findChar_split b.data _ '"' h]
    show ((((11 : Int) + 1)).toNat : Int) + (b.data.length : Int)
        = ("pose.bones[\"".data.length : Int) + (b.data.length : Int)
    rw [show ((((11 : Int) + 1)).toNat : Int) = ("pose.bones[\"".data.length : Int) from by decide]
  simp only [get_bone_name_from_data_path, h1, if_true, hs1, hs2]
  have hfin := pySlice_extract "pose.bones[\"".data b.data
      ('"' :: ("][\"".data ++ (p.data ++ "\"]".data)))
  rw [← List.append_assoc] at hdp
  have hmk : String.mk (("pose.bones[\"".data ++ b.data)
      ++ ('"' :: ("][\"".data ++ (p.data ++ "\"]".data))))
      = get_data_path_pose_bone_property b p := by
    rw [← hdp]
  rw [hmk] at hfin
  rw [show ((11 : Int) + 1) = (("pose.bones[\"".data.length : Nat) : Int) from by decide]
  rw [hfin]

/-- C10 witness: the round trip at the concrete path for bone "head" and
property "IK_FK". -/
theorem c10_data_path_roundtrip_witness :
    ('"' ∉ ("head" : String).data) ∧
    get_bone_name_from_data_path (get_data_path_pose_bone_property "head" "IK_FK")
      = some "head" :=
  ⟨by decide, c10_data_path_roundtrip "head" "IK_FK" (by decide)⟩

/-! ### Accessory classifier lemmas (C3, C6) -/

theorem accessory_fold_eq (c : String → Bool) (l : List String) (acc : Option String) :
    l.foldl (fun root p => if !(c p) then some p else root) acc
      = match (l.filter (fun p => !(c p))).getLast? with
        | some x => some x
        | none => acc := by
  induction l using List.reverseRecOn with
  | nil => rfl
  | append_singleton l a ih =>
    rw [List.foldl_append, List.filter_append]
    cases hca : c a with
    | true =>
      simp only [List.foldl_cons, List.foldl_nil, hca, Bool.not_true, Bool.false_eq_true,
        if_false, List.filter_cons, List.filter_nil, List.append_nil]
      rw [ih]
    | false =>
      simp only [List.foldl_cons, List.foldl_nil, hca, Bool.not_false, if_true,
        List.filter_cons, List.filter_nil]
      rw [List.getLast?_concat]

/-- C3, counterexample: with mapping table [("x", "M")] and bone A whose
parent chain is A -> M -> T (M mapped, T the unmapped chain top with no
parent), get_accessory_root_bone returns T.  T has no parent at all — in
particular no mapped parent — while the only boundary bone "unmapped with a
mapped parent" does not exist among the ancestors, so the claim as stated
requires a None result here. -/
theorem c3_accessory_root_counterexample :
    get_accessory_root_bone [("x", "M")] ⟨"A", ["M", "T"]⟩ = some "T" ∧
    bone_mapping_contains_bone [("x", "M")] "M" = true ∧
    bone_mapping_contains_bone [("x", "M")] "T" = false ∧
    (⟨"A", ["M", "T"]⟩ : ChainBone).ancestors.getLast? = some "T" := by
  decide

/-- C3, amended: get_accessory_root_bone returns None when the bone itself is
mapped, and otherwise the highest (last met when walking upward) strict
ancestor that is unmapped — regardless of whether that ancestor's own parent
is mapped or even exists — or None when every strict ancestor is mapped. -/
theorem c3_accessory_root_amended (bone_mappings : List (String × String))
    (bone : ChainBone) :
    get_accessory_root_bone bone_mappings bone
      = if bone_mapping_contains_bone bone_mappings bone.name then none
        else (bone.ancestors.filter
            (fun p => !(bone_mapping_contains_bone bone_mappings p))).getLast? := by
  unfold get_accessory_root_bone
  cases hb : bone_mapping_contains_bone bone_mappings bone.name with
  | true => simp [hb]
  | false =>
    simp only [hb, Bool.false_eq_true, if_false]
    rw [accessory_fold_eq]
    cases (bone.ancestors.filter
        (fun p => !(bone_mapping_contains_bone bone_mappings p))).getLast? <;> rfl

theorem accessory_bones_foldl_mem (m : List (String × String)) :
    ∀ (rig : List ChainBone) (acc : List String) (n : String),
      n ∈ rig.foldl (fun accessory_bones bone =>
          if !(bone_mapping_contains_bone m bone.name)
              && !(accessory_bones.contains bone.name)
              && !(bone_parent_in_list accessory_bones bone)
          then accessory_bones ++ [bone.name]
          else accessory_bones) acc →
      n ∈ acc ∨ bone_mapping_contains_bone m n = false := by
  intro rig
  induction rig with
  | nil => intro acc n h; exact Or.inl h
  | cons b rig ih =>
    intro acc n h
    rw [List.foldl_cons] at h
    by_cases hg : (!(bone_mapping_contains_bone m b.name)
        && !(acc.contains b.name)
        && !(bone_parent_in_list acc b)) = true
    · rw [if_pos hg] at h
      rcases ih _ n h with h2 | h2
      · rcases List.mem_append.mp h2 with h3 | h3
        · exact Or.inl h3
        · have hn : n = b.name := by simpa using h3
          have hc : bone_mapping_contains_bone m b.name = false := by
            cases hcb : bone_mapping_contains_bone m b.name
            · rfl
            · rw [hcb] at hg
              simp at hg
          rw [hn]
          exact Or.inr hc
      · exact Or.inr h2
    · rw [if_neg hg] at h
      exact ih _ n h

theorem accessory_bones_foldl_sublist (m : List (String × String)) :
    ∀ (rig : List ChainBone) (acc : List String),
      ∃ ext, rig.foldl (fun accessory_bones bone =>
          if !(bone_mapping_contains_bone m bone.name)
              && !(accessory_bones.contains bone.name)
              && !(bone_parent_in_list accessory_bones bone)
          then accessory_bones ++ [bone.name]
          else accessory_bones) acc = acc ++ ext
        ∧ List.Sublist ext (rig.map ChainBone.name) := by
  intro rig
  induction rig with
  | nil => intro acc; exact ⟨[], by simp, List.nil_sublist _⟩
  | cons b rig ih =>
    intro acc
    rw [List.foldl_cons]
    by_cases hg : (!(bone_mapping_contains_bone m b.name)
        && !(acc.contains b.name)
        && !(bone_parent_in_list acc b)) = true
    · rw [if_pos hg]
      obtain ⟨ext, he, hs⟩ := ih (acc ++ [b.name])
      refine ⟨b.name :: ext, ?_, ?_⟩
      · rw [he, List.append_assoc]
        rfl
      · rw [List.map_cons]
        exact List.Sublist.cons₂ b.name hs
    · rw [if_neg hg]
      obtain ⟨ext, he, hs⟩ := ih acc
      exact ⟨ext, he, List.Sublist.cons b.name hs⟩

theorem accessory_bones_foldl_not_mem (m : List (String × String)) :
    ∀ (rig : List ChainBone) (acc : List String) (n : String),
      n ∉ acc → n ∉ rig.map ChainBone.name →
      n ∉ rig.foldl (fun accessory_bones bone =>
          if !(bone_mapping_contains_bone m bone.name)
              && !(accessory_bones.contains bone.name)
              && !(bone_parent_in_list accessory_bones bone)
          then accessory_bones ++ [bone.name]
          else accessory_bones) acc := by
  intro rig
  induction rig with
  | nil => intro acc n h1 _ h3; exact h1 h3
  | cons b rig ih =>
    intro acc n h1 h2
    rw [List.map_cons] at h2
    have hne : n ≠ b.name := fun he => h2 (by rw [he]; exact List.mem_cons_self _ _)
    have h2' : n ∉ rig.map ChainBone.name := fun hm => h2 (List.mem_cons_of_mem _ hm)
    rw [List.foldl_cons]
    by_cases hg : (!(bone_mapping_contains_bone m b.name)
        && !(acc.contains b.name)
        && !(bone_parent_in_list acc b)) = true
    · rw [if_pos hg]
      refine ih _ n ?_ h2'
      intro hmem
      rcases List.mem_append.mp hmem with h3 | h3
      · exact h1 h3
      · exact hne (by simpa using h3)
    · rw [if_neg hg]
      exact ih _ n h1 h2'

/-- C6: in find_accessory_bones, (a) a bone name matching the mapping table
under the prefix-insensitive equality is never recorded; (b) under the
armature invariant that bone names are unique, a bone that at its turn has an
ancestor (exact name) already in the recorded list is never separately
recorded; (c) the recorded roots form a subsequence of the rig's bone
enumeration order. -/
theorem c6_find_accessory_bones (m : List (String × String)) (rig : List ChainBone)
    (hnodup : (rig.map ChainBone.name).Nodup) :
    (∀ n ∈ find_accessory_bones m rig, bone_mapping_contains_bone m n = false) ∧
    (∀ pre bone post, rig = pre ++ bone :: post →
        bone_parent_in_list (find_accessory_bones m pre) bone = true →
        bone.name ∉ find_accessory_bones m rig) ∧
    List.Sublist (find_accessory_bones m rig) (rig.map ChainBone.name) := by
  refine ⟨?_, ?_, ?_⟩
  · intro n hn
    unfold find_accessory_bones at hn
    rcases accessory_bones_foldl_mem m rig [] n hn with h | h
    · exact absurd h (List.not_mem_nil n)
    · exact h
  · intro pre bone post hsplit hpl
    subst hsplit
    unfold find_accessory_bones at hpl ⊢
    rw [List.foldl_append, List.foldl_cons]
    have hguard : ¬ ((!(bone_mapping_contains_bone m bone.name)
        && !((pre.foldl (fun accessory_bones bone =>
            if !(bone_mapping_contains_bone m bone.name)
                && !(accessory_bones.contains bone.name)
                && !(bone_parent_in_list accessory_bones bone)
            then accessory_bones ++ [bone.name]
            else accessory_bones) []).contains bone.name)
        && !(bone_parent_in_list (pre.foldl (fun accessory_bones bone =>
            if !(bone_mapping_contains_bone m bone.name)
                && !(accessory_bones.contains bone.name)
                && !(bone_parent_in_list accessory_bones bone)
            then accessory_bones ++ [bone.name]
            else accessory_bones) []) bone)) = true) := by
      rw [hpl]
      simp
    rw [if_neg hguard]
    rw [List.map_append, List.map_cons] at hnodup
    have hparts := List.nodup_append.mp hnodup
    have hnotpre : bone.name ∉ pre.map ChainBone.name := by
      intro hmem
      exact hparts.2.2 hmem (List.mem_cons_self _ _)
    have hnotpost : bone.name ∉ post.map ChainBone.name :=
      (List.nodup_cons.mp hparts.2.1).1
    obtain ⟨ext, he, hs⟩ := accessory_bones_foldl_sublist m pre []
    have hnotA0 : bone.name ∉ pre.foldl (fun accessory_bones bone =>
        if !(bone_mapping_contains_bone m bone.name)
            && !(accessory_bones.contains bone.name)
            && !(bone_parent_in_list accessory_bones bone)
        then accessory_bones ++ [bone.name]
        else accessory_bones) [] := by
      rw [he, List.nil_append]
      intro hx
      exact hnotpre (hs.subset hx)
    exact accessory_bones_foldl_not_mem m post _ bone.name hnotA0 hnotpost
  · unfold find_accessory_bones
    obtain ⟨ext, he, hs⟩ := accessory_bones_foldl_sublist m rig []
    rw [he, List.nil_append]
    exact hs

/-- C6 witness: the classifier on the sample rig (mapped Head, accessory
chain under it, free hair chain) with unique bone names. -/
theorem c6_find_accessory_bones_witness :
    ((sampleRigC6.map ChainBone.name).Nodup) ∧
    ((∀ n ∈ find_accessory_bones sampleMappings sampleRigC6,
        bone_mapping_contains_bone sampleMappings n = false) ∧
     (∀ pre bone post, sampleRigC6 = pre ++ bone :: post →
        bone_parent_in_list (find_accessory_bones sampleMappings pre) bone = true →
        bone.name ∉ find_accessory_bones sampleMappings sampleRigC6) ∧
     List.Sublist (find_accessory_bones sampleMappings sampleRigC6)
       (sampleRigC6.map ChainBone.name)) :=
  ⟨by decide, c6_find_accessory_bones sampleMappings sampleRigC6 (by decide)⟩

/-- C7: for each of the three lookup contexts, when a bone with exactly the
requested (nonempty — Blender bone names are never empty) name exists in the
store, the rl lookup returns that bone: exact match wins over the
prefix-stripped retries even when the stripped name also resolves. -/
theorem c7_exact_match_wins :
    (∀ (bones : List EditBone) (name : String), name ≠ "" →
        (∃ b ∈ bones, b.name = name) →
        ∃ b, get_rl_edit_bone bones name = some b ∧ b.name = name) ∧
    (∀ (bones : List DataBone) (name : String), name ≠ "" →
        (∃ b ∈ bones, b.name = name) →
        ∃ b, get_rl_bone bones name = some b ∧ b.name = name) ∧
    (∀ (bones : List PoseBone) (name : String), name ≠ "" →
        (∃ b ∈ bones, b.name = name) →
        ∃ b, get_rl_pose_bone bones name = some b ∧ b.name = name) := by
  refine ⟨?_, ?_, ?_⟩ <;>
  · intro bones name hne hex
    first
    | unfold get_rl_edit_bone
    | unfold get_rl_bone
    | unfold get_rl_pose_bone
    rw [if_neg hne]
    obtain ⟨b, hb, hname⟩ := hex
    have hsome : (bones.find? (fun b => b.name == name)).isSome :=
      List.find?_isSome.mpr ⟨b, hb, by simp [hname]⟩
    obtain ⟨c, hc⟩ := Option.isSome_iff_exists.mp hsome
    rw [hc]
    refine ⟨c, rfl, ?_⟩
    have := List.find?_some hc
    simpa using this

/-- C7 witness: a store holding both "Head" and "CC_Base_Head"; looking up
"CC_Base_Head" returns the bone with exactly that name, not the stripped
"Head" bone. -/
theorem c7_exact_match_wins_witness :
    (("CC_Base_Head" : String) ≠ "" ∧
      (∃ b ∈ [mkEB "Head" none, mkEB "CC_Base_Head" none], b.name = "CC_Base_Head")) ∧
    (∃ b, get_rl_edit_bone [mkEB "Head" none, mkEB "CC_Base_Head" none] "CC_Base_Head"
        = some b ∧ b.name = "CC_Base_Head") :=
  ⟨⟨by decide, ⟨mkEB "CC_Base_Head" none,
      List.mem_cons_of_mem _ (List.mem_cons_self _ _), rfl⟩⟩,
   c7_exact_match_wins.1 [mkEB "Head" none, mkEB "CC_Base_Head" none] "CC_Base_Head"
     (by decide)
     ⟨mkEB "CC_Base_Head" none, List.mem_cons_of_mem _ (List.mem_cons_self _ _), rfl⟩⟩

/-- C9: when a bone named to_name already exists in the rig and the edit-mode
switch is granted, rename_bone changes nothing (every bone keeps its name)
and logs the error naming both bones. -/
theorem c9_rename_existing_target (bones : List EditBone) (from_name to_name : String)
    (hexists : to_name ∈ bones.map (fun b => b.name)) :
    rename_bone true bones from_name to_name
      = (bones, [LogMsg.error ("Bone " ++ from_name ++ " cannot be renamed as "
          ++ to_name ++ " already exists in rig!")]) := by
  unfold rename_bone
  have hany : bones.any (fun b => b.name == to_name) = true := by
    rw [List.any_eq_true]
    obtain ⟨b, hbmem, hbname⟩ := List.mem_map.mp hexists
    exact ⟨b, hbmem, by simp [hbname]⟩
  simp only [if_true, hany, Bool.not_true, Bool.and_false, Bool.false_eq_true, if_false]

/-- C9 witness: renaming Head to Neck in a rig already holding a Neck. -/
theorem c9_rename_existing_target_witness :
    ("Neck" ∈ ([mkEB "Head" none, mkEB "Neck" none].map (fun b => b.name))) ∧
    rename_bone true [mkEB "Head" none, mkEB "Neck" none] "Head" "Neck"
      = ([mkEB "Head" none, mkEB "Neck" none],
         [LogMsg.error ("Bone " ++ "Head" ++ " cannot be renamed as "
           ++ "Neck" ++ " already exists in rig!")]) :=
  ⟨by decide,
   c9_rename_existing_target [mkEB "Head" none, mkEB "Neck" none] "Head" "Neck" (by decide)⟩

/-- C4, code at the failing input: copy_position with the target bone present
and an empty copy_bones list accumulates num = 0 and reaches the division
with no emptiness guard — the model's explicit ZeroDivisionError, where the
claim (and spec section 8) requires an explicit precondition failure
returning None instead of a crash. -/
theorem c4_copy_position_empty_divzero :
    copy_position true (fun v => v) [mkEB "Spine" none] "Spine" [] 0
      = .error .zeroDivisionError := rfl

/-- C5, counterexample: set_edit_bone_layer indexes
rig.data.edit_bones[bone_name] with no guard and no try/except, so a missing
bone raises KeyError out of the module — against the claim that no public
operation lets an exception escape. -/
theorem c5_no_escape_counterexample :
    set_edit_bone_layer [] "spine" 1 = .error (.keyError "spine") := rfl

/-- C5, amended: the five constraint builders do catch their own failures
(each body runs in try/except and degrades to a logged None), so none of them
ever lets an exception escape; the blanket claim fails only for the
unguarded helpers such as set_edit_bone_layer, copy_position and
clear_drivers. -/
theorem c5_constraint_builders_no_escape :
    (∀ (objOk : Bool) (from_rig : String) (to_bones : List PoseBone)
        (from_bone to_bone : String) (influence : ℚ) (space : String),
      ∃ r, add_copy_transforms_constraint objOk from_rig to_bones from_bone to_bone
          influence space = .ok r) ∧
    (∀ (objOk : Bool) (from_rig : String) (to_bones : List PoseBone)
        (from_bone to_bone : String) (influence : ℚ) (space : String),
      ∃ r, add_copy_rotation_constraint objOk from_rig to_bones from_bone to_bone
          influence space = .ok r) ∧
    (∀ (objOk : Bool) (from_rig : String) (to_bones : List PoseBone)
        (from_bone to_bone : String) (influence : ℚ) (space : String),
      ∃ r, add_copy_location_constraint objOk from_rig to_bones from_bone to_bone
          influence space = .ok r) ∧
    (∀ (objOk : Bool) (rig : String) (pose_bones : List PoseBone)
        (bone_name target_name : String) (influence : ℚ),
      ∃ r, add_damped_track_constraint objOk rig pose_bones bone_name target_name
          influence = .ok r) ∧
    (∀ (objOk : Bool) (from_rig : String) (to_bones : List PoseBone)
        (from_bone to_bone : String) (dist influence : ℚ) (space : String),
      ∃ r, add_limit_distance_constraint objOk from_rig to_bones from_bone to_bone
          dist influence space = .ok r) := by
  refine ⟨?_, ?_, ?_, ?_, ?_⟩
  · intro objOk from_rig to_bones from_bone to_bone influence space
    unfold add_copy_transforms_constraint
    cases add_copy_transforms_constraint_body objOk from_rig to_bones from_bone to_bone
        influence space with
    | ok r => exact ⟨r, rfl⟩
    | error e => exact ⟨(none, to_bones), rfl⟩
  · intro objOk from_rig to_bones from_bone to_bone influence space
    unfold add_copy_rotation_constraint
    cases add_copy_rotation_constraint_body objOk from_rig to_bones from_bone to_bone
        influence space with
    | ok r => exact ⟨r, rfl⟩
    | error e => exact ⟨(none, to_bones), rfl⟩
  · intro objOk from_rig to_bones from_bone to_bone influence space
    unfold add_copy_location_constraint
    cases add_copy_location_constraint_body objOk from_rig to_bones from_bone to_bone
        influence space with
    | ok r => exact ⟨r, rfl⟩
    | error e => exact ⟨(none, to_bones), rfl⟩
  · intro objOk rig pose_bones bone_name target_name influence
    unfold add_damped_track_constraint
    cases add_damped_track_constraint_body objOk rig pose_bones bone_name target_name
        influence with
    | ok r => exact ⟨r, rfl⟩
    | error e => exact ⟨(none, pose_bones), rfl⟩
  · intro objOk from_rig to_bones from_bone to_bone dist influence space
    unfold add_limit_distance_constraint
    cases add_limit_distance_constraint_body objOk from_rig to_bones from_bone to_bone
        dist influence space with
    | ok r => exact ⟨r, rfl⟩
    | error e => exact ⟨(none, to_bones), rfl⟩

/-! ### Bone Tree Copier lemmas (C1, C8) -/

theorem le_listMax (l : List Nat) (x : Nat) (h : x ∈ l) : x ≤ listMax l := by
  induction l with
  | nil => cases h
  | cons a l ih =>
    rcases List.mem_cons.mp h with h1 | h1
    · rw [h1]
      exact le_max_left _ _
    · exact le_trans (ih h1) (le_max_right _ _)

theorem string_length_mk (l : List Char) : (String.mk l).length = l.length := rfl

theorem freshName_not_mem (names : List String) (n : String) :
    freshName names n ∉ names := by
  unfold freshName
  by_cases hc : names.contains n = true
  · rw [if_pos hc]
    intro hmem
    have hlen : (n ++ "." ++ String.mk (List.replicate
        (listMax (names.map String.length) + 1) '0')).length
        ≤ listMax (names.map String.length) := by
      exact le_listMax _ _ (List.mem_map_of_mem String.length hmem)
    have hkey : (n ++ "." ++ String.mk (List.replicate
        (listMax (names.map String.length) + 1) '0')).length
        = n.length + 1 + (listMax (names.map String.length) + 1) := by
      show (n ++ "." ++ String.mk (List.replicate
        (listMax (names.map String.length) + 1) '0')).data.length
        = n.data.length + 1 + (listMax (names.map String.length) + 1)
      rw [String.data_append, String.data_append]
      simp
      omega
    rw [hkey] at hlen
    omega
  · rw [if_neg hc]
    intro hmem
    exact hc (List.elem_iff.mpr hmem)

theorem freshName_eq (names : List String) (n : String) (h : n ∉ names) :
    freshName names n = n := by
  unfold freshName
  rw [if_neg]
  intro hc
  exact h (List.elem_iff.mp hc)

theorem ebNames_append (l1 l2 : List EditBone) :
    ebNames (l1 ++ l2) = ebNames l1 ++ ebNames l2 := by
  unfold ebNames
  rw [List.map_append]

theorem parentsLinked_mono (l : List BoneDef) :
    ∀ (A B : List String), (∀ x ∈ A, x ∈ B) →
      parentsLinked A l → parentsLinked B l := by
  induction l with
  | nil => intro A B _ _; trivial
  | cons d rest ih =>
    intro A B hsub hl
    obtain ⟨h1, h2⟩ := hl
    refine ⟨hsub _ h1, ih (d.name :: A) (d.name :: B) ?_ h2⟩
    intro x hx
    rcases List.mem_cons.mp hx with h | h
    · rw [h]; exact List.mem_cons_self _ _
    · exact List.mem_cons_of_mem _ (hsub x h)

theorem parentsLinked_append (l1 : List BoneDef) :
    ∀ (l2 : List BoneDef) (A : List String),
      parentsLinked A l1 →
      parentsLinked ((l1.map BoneDef.name).reverse ++ A) l2 →
      parentsLinked A (l1 ++ l2) := by
  induction l1 with
  | nil =>
    intro l2 A _ h2
    simpa using h2
  | cons d l1 ih =>
    intro l2 A h1 h2
    obtain ⟨hd, h1'⟩ := h1
    refine ⟨hd, ih l2 (d.name :: A) h1' ?_⟩
    have he : ((d :: l1).map BoneDef.name).reverse ++ A
        = (l1.map BoneDef.name).reverse ++ (d.name :: A) := by
      rw [List.map_cons, List.reverse_cons, List.append_assoc]
      rfl
    rw [he] at h2
    exact h2

mutual

theorem subtreeDefs_linked (world : Mat34) :
    ∀ (t : BoneTree) (p : String) (A : List String), p ∈ A →
      parentsLinked A (subtreeDefs world t p)
  | .node n h tl hr tr r cs, p, A, hp => by
    rw [subtreeDefs]
    exact ⟨hp, subtreeForestDefs_linked world cs n (n :: A) (List.mem_cons_self _ _)⟩

theorem subtreeForestDefs_linked (world : Mat34) :
    ∀ (f : BoneForest) (p : String) (A : List String), p ∈ A →
      parentsLinked A (subtreeForestDefs world f p)
  | .nil, _, _, _ => trivial
  | .cons t rest, p, A, hp => by
    rw [subtreeForestDefs]
    refine parentsLinked_append _ _ _ (subtreeDefs_linked world t p A hp)
      (subtreeForestDefs_linked world rest p _ ?_)
    exact List.mem_append_right _ hp

end

theorem renameDef_inj (cc3 dstn s1 s2 : String) (h1 : s1 ≠ dstn) (h2 : s2 ≠ dstn)
    (he : renameDef cc3 dstn s1 = renameDef cc3 dstn s2) : s1 = s2 := by
  unfold renameDef at he
  cases hb1 : s1 == cc3 <;> cases hb2 : s2 == cc3 <;> rw [hb1, hb2] at he <;> simp at he
  all_goals first
  | exact he
  | exact absurd he h1
  | exact absurd he h2
  | exact absurd he.symm h1
  | exact absurd he.symm h2
  | rw [(beq_iff_eq).mp hb1, (beq_iff_eq).mp hb2]

theorem renameDef_ne_cc3 (cc3 dstn s : String) (hne : dstn ≠ cc3) :
    renameDef cc3 dstn s ≠ cc3 := by
  unfold renameDef
  cases hb : s == cc3
  · simp only [Bool.false_eq_true, if_false]
    intro h
    rw [h] at hb
    simp at hb
  · simp only [if_true]
    exact hne

theorem get_edit_bone_none (bones : List EditBone) (name : String)
    (h : name ∉ ebNames bones) : get_edit_bone bones name = none := by
  unfold get_edit_bone
  by_cases he : name = ""
  · rw [if_pos he]
  · rw [if_neg he]
    apply List.find?_eq_none.mpr
    intro b hb hbeq
    rw [beq_iff_eq] at hbeq
    exact h (hbeq ▸ List.mem_map_of_mem _ hb)

theorem get_edit_bone_found (bones : List EditBone) (name : String)
    (hne : name ≠ "") (h : name ∈ ebNames bones) :
    ∃ b, get_edit_bone bones name = some b ∧ b.name = name := by
  unfold get_edit_bone
  rw [if_neg hne]
  obtain ⟨b, hb, hbname⟩ := List.mem_map.mp h
  have hsome : (bones.find? (fun b => b.name == name)).isSome :=
    List.find?_isSome.mpr ⟨b, hb, by simp [hbname]⟩
  obtain ⟨c, hc⟩ := Option.isSome_iff_exists.mp hsome
  rw [hc]
  refine ⟨c, rfl, ?_⟩
  have := List.find?_some hc
  simpa using this

theorem expectedBone_eq (cc3_name dst_name : String) (layer : Nat) (d : BoneDef) :
    expectedBone cc3_name dst_name layer d
      = { name := renameDef cc3_name dst_name d.name, head := d.head, tail := d.tail,
          head_radius := d.head_radius, tail_radius := d.tail_radius, roll := d.roll,
          parent := if d.parent_name == cc3_name then none else some d.parent_name,
          layers := oneHot32 layer } := rfl

theorem copyLoop_cons (cc3_name dst_name : String) (layer : Nat) (d : BoneDef)
    (rest : List BoneDef) (bones : List EditBone) :
    copyLoop cc3_name dst_name layer (d :: rest) bones
      = ((copyLoop cc3_name dst_name layer rest (bones ++
          [{ name := freshName (ebNames bones)
                (if d.name == cc3_name then dst_name else d.name),
             head := d.head, tail := d.tail, head_radius := d.head_radius,
             tail_radius := d.tail_radius, roll := d.roll,
             parent := (get_edit_bone (bones ++
               [{ name := freshName (ebNames bones)
                     (if d.name == cc3_name then dst_name else d.name),
                  head := d.head, tail := d.tail, head_radius := d.head_radius,
                  tail_radius := d.tail_radius, roll := d.roll,
                  parent := none, layers := oneHot32 layer }]) d.parent_name).map
               (fun b => b.name),
             layers := oneHot32 layer }])).1,
         (d, freshName (ebNames bones)
            (if d.name == cc3_name then dst_name else d.name))
           :: (copyLoop cc3_name dst_name layer rest (bones ++
          [{ name := freshName (ebNames bones)
                (if d.name == cc3_name then dst_name else d.name),
             head := d.head, tail := d.tail, head_radius := d.head_radius,
             tail_radius := d.tail_radius, roll := d.roll,
             parent := (get_edit_bone (bones ++
               [{ name := freshName (ebNames bones)
                     (if d.name == cc3_name then dst_name else d.name),
                  head := d.head, tail := d.tail, head_radius := d.head_radius,
                  tail_radius := d.tail_radius, roll := d.roll,
                  parent := none, layers := oneHot32 layer }]) d.parent_name).map
               (fun b => b.name),
             layers := oneHot32 layer }])).2) := rfl

theorem copyLoop_spec (cc3_name dst_name : String) (layer : Nat) (dst0 : List EditBone)
    (hcc3 : cc3_name ∉ ebNames dst0) (hne : dst_name ≠ cc3_name) :
    ∀ (defs : List BoneDef) (ps : List String) (created : List EditBone) (A : List String),
      ebNames created = ps.map (renameDef cc3_name dst_name) →
      (ps ++ defs.map BoneDef.name).Nodup →
      (∀ s ∈ ps ++ defs.map BoneDef.name,
        renameDef cc3_name dst_name s ∉ ebNames dst0) →
      (∀ s ∈ ps ++ defs.map BoneDef.name, s ≠ "") →
      dst_name ∉ ps ++ defs.map BoneDef.name →
      (∀ x, x ∈ A ↔ x = cc3_name ∨ x ∈ ps) →
      parentsLinked A defs →
      copyLoop cc3_name dst_name layer defs (dst0 ++ created)
        = (dst0 ++ created ++ defs.map (expectedBone cc3_name dst_name layer),
           defs.map (fun d => (d, renameDef cc3_name dst_name d.name))) := by
  intro defs
  induction defs with
  | nil =>
    intro ps created A _ _ _ _ _ _ _
    simp [copyLoop]
  | cons d rest ih =>
    intro ps created A hcreated hnd hfr hpe hdn hA hl
    obtain ⟨hdparent, hlrest⟩ := hl
    have hdmem : d.name ∈ ps ++ (d :: rest).map BoneDef.name := by
      apply List.mem_append_right
      simp
    have hd_ne_dst : d.name ≠ dst_name := fun h => hdn (h ▸ hdmem)
    have hrenfresh_dst : renameDef cc3_name dst_name d.name ∉ ebNames dst0 := hfr _ hdmem
    have hd_notin_ps : d.name ∉ ps := by
      intro hmem
      have hnd' := hnd
      rw [List.map_cons] at hnd'
      have hdisj := (List.nodup_append.mp hnd').2.2
      exact hdisj hmem (List.mem_cons_self _ _)
    have hrenfresh_created : renameDef cc3_name dst_name d.name ∉ ebNames created := by
      rw [hcreated]
      intro hmem
      obtain ⟨s, hs, hse⟩ := List.mem_map.mp hmem
      have hsne : s ≠ dst_name := fun h => hdn (h ▸ List.mem_append_left _ hs)
      have heq : s = d.name :=
        renameDef_inj cc3_name dst_name s d.name hsne hd_ne_dst hse
      exact hd_notin_ps (heq ▸ hs)
    have hfreshstep : freshName (ebNames (dst0 ++ created))
        (if d.name == cc3_name then dst_name else d.name)
        = renameDef cc3_name dst_name d.name := by
      have hrw : (if d.name == cc3_name then dst_name else d.name)
          = renameDef cc3_name dst_name d.name := rfl
      rw [hrw]
      apply freshName_eq
      rw [ebNames_append]
      intro hmem
      rcases List.mem_append.mp hmem with h | h
      · exact hrenfresh_dst h
      · exact hrenfresh_created h
    have hren_newB_ne_cc3 : renameDef cc3_name dst_name d.name ≠ cc3_name :=
      renameDef_ne_cc3 cc3_name dst_name d.name hne
    have hparmap : (get_edit_bone ((dst0 ++ created) ++
        [{ name := renameDef cc3_name dst_name d.name, head := d.head, tail := d.tail,
           head_radius := d.head_radius, tail_radius := d.tail_radius, roll := d.roll,
           parent := none, layers := oneHot32 layer }]) d.parent_name).map
        (fun b => b.name)
        = (if d.parent_name == cc3_name then none else some d.parent_name) := by
      cases hb : d.parent_name == cc3_name with
      | true =>
        have hpcc : d.parent_name = cc3_name := by simpa using hb
        have hnone : get_edit_bone ((dst0 ++ created) ++
            [{ name := renameDef cc3_name dst_name d.name, head := d.head, tail := d.tail,
               head_radius := d.head_radius, tail_radius := d.tail_radius, roll := d.roll,
               parent := none, layers := oneHot32 layer }]) d.parent_name = none := by
          apply get_edit_bone_none
          rw [hpcc, ebNames_append, ebNames_append]
          intro hmem
          rcases List.mem_append.mp hmem with h | h
          · rcases List.mem_append.mp h with h2 | h2
            · exact hcc3 h2
            · rw [hcreated] at h2
              obtain ⟨s, _, hse⟩ := List.mem_map.mp h2
              exact renameDef_ne_cc3 cc3_name dst_name s hne hse
          · have hsymm : cc3_name = renameDef cc3_name dst_name d.name := by
              simpa [ebNames] using h
            exact hren_newB_ne_cc3 hsymm.symm
        rw [hnone]
        simp
      | false =>
        have hpcc_false : d.parent_name ≠ cc3_name := by
          intro h
          rw [h] at hb
          simp at hb
        have hps : d.parent_name ∈ ps := by
          rcases (hA d.parent_name).mp hdparent with h | h
          · exact absurd h hpcc_false
          · exact h
        have hpne : d.parent_name ≠ "" := hpe _ (List.mem_append_left _ hps)
        have hrenid : renameDef cc3_name dst_name d.parent_name = d.parent_name := by
          unfold renameDef
          rw [hb]
          simp
        have hnotdst : d.parent_name ∉ ebNames dst0 := by
          have := hfr _ (List.mem_append_left _ hps)
          rwa [hrenid] at this
        have hinc : d.parent_name ∈ ebNames created := by
          rw [hcreated]
          have := List.mem_map_of_mem (renameDef cc3_name dst_name) hps
          rwa [hrenid] at this
        have hfound := get_edit_bone_found (created ++
            [{ name := renameDef cc3_name dst_name d.name, head := d.head, tail := d.tail,
               head_radius := d.head_radius, tail_radius := d.tail_radius, roll := d.roll,
               parent := none, layers := oneHot32 layer }]) d.parent_name hpne
          (by rw [ebNames_append]; exact List.mem_append_left _ hinc)
        obtain ⟨c, hc, hcname⟩ := hfound
        have hsplit : get_edit_bone ((dst0 ++ created) ++
            [{ name := renameDef cc3_name dst_name d.name, head := d.head, tail := d.tail,
               head_radius := d.head_radius, tail_radius := d.tail_radius, roll := d.roll,
               parent := none, layers := oneHot32 layer }]) d.parent_name
            = get_edit_bone (created ++
            [{ name := renameDef cc3_name dst_name d.name, head := d.head, tail := d.tail,
               head_radius := d.head_radius, tail_radius := d.tail_radius, roll := d.roll,
               parent := none, layers := oneHot32 layer }]) d.parent_name := by
          rw [List.append_assoc]
          unfold get_edit_bone
          rw [if_neg hpne, if_neg hpne, List.find?_append]
          have h0 : dst0.find? (fun b => b.name == d.parent_name) = none := by
            apply List.find?_eq_none.mpr
            intro b hbm hbeq
            rw [beq_iff_eq] at hbeq
            exact hnotdst (hbeq ▸ List.mem_map_of_mem _ hbm)
          rw [h0]
          rfl
        rw [hsplit, hc]
        simp [hcname]
    rw [copyLoop_cons, hfreshstep, hparmap, ← expectedBone_eq]
    rw [List.append_assoc]
    have hih := ih (ps ++ [d.name]) (created ++ [expectedBone cc3_name dst_name layer d])
      (d.name :: A) ?h1 ?h2 ?h3 ?h4 ?h5 ?h6 ?h7
    case h1 =>
      rw [ebNames_append, hcreated, List.map_append]
      rfl
    case h2 =>
      have := hnd
      rw [List.map_cons, List.append_cons] at this
      exact this
    case h3 =>
      intro s hs
      apply hfr
      rw [List.map_cons, List.append_cons]
      exact hs
    case h4 =>
      intro s hs
      apply hpe
      rw [List.map_cons, List.append_cons]
      exact hs
    case h5 =>
      intro hmem
      apply hdn
      rw [List.map_cons, List.append_cons]
      exact hmem
    case h6 =>
      intro x
      rw [List.mem_cons, hA x, List.mem_append, List.mem_singleton]
      tauto
    case h7 => exact hlrest
    rw [hih]
    simp [List.append_assoc]

theorem renameDef_self (cc3 dstn : String) : renameDef cc3 dstn cc3 = dstn := by
  simp [renameDef]

theorem setBoneParentFirst_append (bname pname : String) :
    ∀ (l1 : List EditBone) (b : EditBone) (l2 : List EditBone),
      (∀ x ∈ l1, x.name ≠ bname) → b.name = bname →
      setBoneParentFirst bname pname (l1 ++ b :: l2)
        = l1 ++ { b with parent := some pname } :: l2 := by
  intro l1
  induction l1 with
  | nil =>
    intro b l2 _ hb
    show setBoneParentFirst bname pname (b :: l2) = _
    unfold setBoneParentFirst
    rw [if_pos (by simp [hb])]
    rfl
  | cons x l1 ih =>
    intro b l2 hl1 hb
    have hx : x.name ≠ bname := hl1 x (List.mem_cons_self _ _)
    show setBoneParentFirst bname pname (x :: (l1 ++ b :: l2)) = _
    unfold setBoneParentFirst
    rw [if_neg (by simp [hx])]
    rw [ih b l2 (fun y hy => hl1 y (List.mem_cons_of_mem _ hy)) hb]
    rfl

theorem setDataLayersFirst_id (bname : String) (layer : Nat) :
    ∀ (l : List DataBone),
      (∀ db ∈ l, db.name = bname → db.layers = oneHot32 layer) →
      setDataLayersFirst bname layer l = l := by
  intro l
  induction l with
  | nil => intro _; rfl
  | cons b rest ih =>
    intro h
    unfold setDataLayersFirst
    by_cases hb : b.name = bname
    · rw [if_pos (by simp [hb])]
      have hlay : b.layers = oneHot32 layer := h b (List.mem_cons_self _ _) hb
      have hupd : ({ b with layers := oneHot32 layer } : DataBone) = b := by
        cases b
        simp only [DataBone.mk.injEq] at hlay ⊢
        simp_all
      rw [hupd]
    · rw [if_neg (by simp [hb])]
      rw [ih (fun db hdb => h db (List.mem_cons_of_mem _ hdb))]

theorem foldl_setDataLayers_id (layer : Nat) :
    ∀ (pairs : List (BoneDef × String)) (data : List DataBone),
      (∀ pr ∈ pairs, ∀ db ∈ data, db.name = pr.2 → db.layers = oneHot32 layer) →
      pairs.foldl (fun ds pr => setDataLayersFirst pr.2 layer ds) data = data := by
  intro pairs
  induction pairs with
  | nil => intro data _; rfl
  | cons pr rest ih =>
    intro data h
    rw [List.foldl_cons]
    rw [setDataLayersFirst_id pr.2 layer data
      (fun db hdb => h pr (List.mem_cons_self _ _) db hdb)]
    exact ih data (fun p hp db hdb => h p (List.mem_cons_of_mem _ hp) db hdb)

theorem copy_subtree_master (objOk : Bool) (world : Mat34)
    (n : String) (h0 t0 : V3) (hr0 tr0 rl0 : ℚ) (cs : BoneForest) (rootPar : String)
    (dst : DstRig) (dst_name dst_parent_name : String) (layer : Nat)
    (hnd : ((subtreeDefs world (.node n h0 t0 hr0 tr0 rl0 cs) rootPar).map
        BoneDef.name).Nodup)
    (hfr : ∀ s ∈ (subtreeDefs world (.node n h0 t0 hr0 tr0 rl0 cs) rootPar).map
        BoneDef.name, renameDef n dst_name s ∉ ebNames dst.edit_bones)
    (hpe : ∀ s ∈ (subtreeDefs world (.node n h0 t0 hr0 tr0 rl0 cs) rootPar).map
        BoneDef.name, s ≠ "")
    (hdn : dst_name ∉ (subtreeDefs world (.node n h0 t0 hr0 tr0 rl0 cs) rootPar).map
        BoneDef.name)
    (hcc3 : n ∉ ebNames dst.edit_bones)
    (hpar : dst_parent_name ∈ ebNames dst.edit_bones)
    (hne : dst_name ≠ n)
    (hdne : dst_name ≠ "")
    (hpne : dst_parent_name ≠ "") :
    copy_rl_edit_bone_subtree true true objOk world
        (some (.node n h0 t0 hr0 tr0 rl0 cs, some rootPar)) dst n dst_name
        dst_parent_name layer
      = .ok (some ((subtreeDefs world (.node n h0 t0 hr0 tr0 rl0 cs) rootPar).map
            (fun d => (d, some (renameDef n dst_name d.name)))),
          ⟨dst.edit_bones ++
              ({ expectedBone n dst_name layer
                   ⟨n, world.apply h0, world.apply t0, hr0, tr0, rl0, rootPar⟩ with
                   parent := some dst_parent_name }
                :: (subtreeForestDefs world cs n).map (expectedBone n dst_name layer)),
            if objOk then
              (dst.edit_bones ++
                ({ expectedBone n dst_name layer
                     ⟨n, world.apply h0, world.apply t0, hr0, tr0, rl0, rootPar⟩ with
                     parent := some dst_parent_name }
                  :: (subtreeForestDefs world cs n).map
                    (expectedBone n dst_name layer))).map toDataBone
            else dst.data_bones⟩) := by
  have hdefs : subtreeDefs world (.node n h0 t0 hr0 tr0 rl0 cs) rootPar
      = (⟨n, world.apply h0, world.apply t0, hr0, tr0, rl0, rootPar⟩ : BoneDef)
        :: subtreeForestDefs world cs n := rfl
  have hdst_fresh : dst_name ∉ ebNames dst.edit_bones := by
    have := hfr n (by rw [hdefs]; simp)
    rwa [renameDef_self] at this
  have hfresh_root : freshName (ebNames dst.edit_bones) dst_name = dst_name :=
    freshName_eq _ _ hdst_fresh
  rw [show copy_rl_edit_bone_subtree true true objOk world
      (some (.node n h0 t0 hr0 tr0 rl0 cs, some rootPar)) dst n dst_name
      dst_parent_name layer
    = (let r := copyLoop n dst_name layer
          (subtreeDefs world (.node n h0 t0 hr0 tr0 rl0 cs) rootPar) dst.edit_bones
       let bones2 :=
         match get_edit_bone r.1 dst_name, get_edit_bone r.1 dst_parent_name with
         | some _, some pb => setBoneParentFirst dst_name pb.name r.1
         | _, _ => r.1
       if objOk then
         let data2 := r.2.foldl (fun ds pr => setDataLayersFirst pr.2 layer ds)
           (bones2.map toDataBone)
         .ok (some (r.2.map (fun pr => (pr.1, some pr.2))), ⟨bones2, data2⟩)
       else .ok (some (r.2.map (fun pr => (pr.1, some pr.2))), ⟨bones2, dst.data_bones⟩))
    from rfl]
  rw [hdefs, copyLoop_cons]
  simp only [beq_self_eq_true, if_true]
  rw [hfresh_root]
  set R : EditBone :=
    { name := dst_name, head := world.apply h0, tail := world.apply t0,
      head_radius := hr0, tail_radius := tr0, roll := rl0,
      parent := Option.map (fun b => b.name)
        (get_edit_bone (dst.edit_bones ++
          [{ name := dst_name, head := world.apply h0, tail := world.apply t0,
             head_radius := hr0, tail_radius := tr0, roll := rl0, parent := none,
             layers := oneHot32 layer }]) rootPar),
      layers := oneHot32 layer } with hR
  have hc1 : ebNames [R] = [n].map (renameDef n dst_name) := by
    rw [hR]
    simp [ebNames, renameDef_self]
  have hc2 : ([n] ++ (subtreeForestDefs world cs n).map BoneDef.name).Nodup := by
    rw [hdefs, List.map_cons] at hnd
    simpa using hnd
  have hc3 : ∀ s ∈ [n] ++ (subtreeForestDefs world cs n).map BoneDef.name,
      renameDef n dst_name s ∉ ebNames dst.edit_bones := by
    intro s hs
    apply hfr
    rw [hdefs, List.map_cons]
    simpa using hs
  have hc4 : ∀ s ∈ [n] ++ (subtreeForestDefs world cs n).map BoneDef.name, s ≠ "" := by
    intro s hs
    apply hpe
    rw [hdefs, List.map_cons]
    simpa using hs
  have hc5 : dst_name ∉ [n] ++ (subtreeForestDefs world cs n).map BoneDef.name := by
    rw [hdefs, List.map_cons] at hdn
    simpa using hdn
  have hc6 : ∀ x, x ∈ ([n] : List String) ↔ x = n ∨ x ∈ ([n] : List String) := by
    intro x
    constructor
    · intro h
      exact Or.inl (by simpa using h)
    · intro h
      rcases h with h | h
      · simpa using h
      · exact h
  have hc7 : parentsLinked [n] (subtreeForestDefs world cs n) :=
    subtreeForestDefs_linked world cs n [n] (List.mem_singleton.mpr rfl)
  have hloop := copyLoop_spec n dst_name layer dst.edit_bones hcc3 hne
    (subtreeForestDefs world cs n) [n] [R] [n] hc1 hc2 hc3 hc4 hc5 hc6 hc7
  rw [hloop]
  have hlook1 : get_edit_bone (dst.edit_bones ++ [R]
      ++ List.map (expectedBone n dst_name layer) (subtreeForestDefs world cs n))
      dst_name = some R := by
    unfold get_edit_bone
    rw [if_neg hdne, List.find?_append, List.find?_append]
    have hf0 : dst.edit_bones.find? (fun b => b.name == dst_name) = none := by
      apply List.find?_eq_none.mpr
      intro b hbm hbeq
      rw [beq_iff_eq] at hbeq
      exact hdst_fresh (hbeq ▸ List.mem_map_of_mem _ hbm)
    have hf1 : List.find? (fun b => b.name == dst_name) [R] = some R := by
      apply List.find?_cons_of_pos
      rw [hR]
      simp
    rw [hf0, hf1]
    rfl
  obtain ⟨pb, hpb, hpbname⟩ := get_edit_bone_found
    (dst.edit_bones ++ [R]
      ++ List.map (expectedBone n dst_name layer) (subtreeForestDefs world cs n))
    dst_parent_name hpne
    (by rw [ebNames_append, ebNames_append]
        exact List.mem_append_left _ (List.mem_append_left _ hpar))
  simp only [hlook1, hpb, hpbname]
  rw [List.append_assoc, List.singleton_append]
  rw [setBoneParentFirst_append dst_name dst_parent_name dst.edit_bones R _
    (fun x hx he => hdst_fresh (he ▸ List.mem_map_of_mem _ hx)) (by rw [hR])]
  have hcond : ∀ pr ∈
      (({ name := n, head := world.apply h0, tail := world.apply t0,
          head_radius := hr0, tail_radius := tr0, roll := rl0,
          parent_name := rootPar } : BoneDef), dst_name)
        :: List.map (fun d => (d, renameDef n dst_name d.name))
            (subtreeForestDefs world cs n),
      ∀ db ∈ List.map toDataBone (dst.edit_bones ++
        { name := R.name, head := R.head, tail := R.tail, head_radius := R.head_radius,
          tail_radius := R.tail_radius, roll := R.roll, parent := some dst_parent_name,
          layers := R.layers }
        :: List.map (expectedBone n dst_name layer) (subtreeForestDefs world cs n)),
      db.name = pr.2 → db.layers = oneHot32 layer := by
    intro pr hpr db hdb hname
    obtain ⟨b, hbmem, hbeq⟩ := List.mem_map.mp hdb
    rcases List.mem_append.mp hbmem with hbm | hbm
    · exfalso
      have hpr2 : ∃ s ∈ List.map BoneDef.name
          (subtreeDefs world (.node n h0 t0 hr0 tr0 rl0 cs) rootPar),
          pr.2 = renameDef n dst_name s := by
        rcases List.mem_cons.mp hpr with h | h
        · refine ⟨n, by rw [hdefs]; simp, ?_⟩
          rw [h, renameDef_self]
        · obtain ⟨d, hdm, hde⟩ := List.mem_map.mp h
          refine ⟨d.name, ?_, ?_⟩
          · rw [hdefs, List.map_cons]
            exact List.mem_cons_of_mem _ (List.mem_map_of_mem _ hdm)
          · rw [← hde]
      obtain ⟨s, hsm, hseq⟩ := hpr2
      have hbn : b.name = renameDef n dst_name s := by
        rw [← hseq, ← hname, ← hbeq]
        rfl
      exact hfr s hsm (hbn ▸ List.mem_map_of_mem _ hbm)
    · rcases List.mem_cons.mp hbm with hbm2 | hbm2
      · rw [← hbeq, hbm2]
        simp [toDataBone, hR]
      · obtain ⟨d, hdm, hde⟩ := List.mem_map.mp hbm2
        rw [← hbeq, ← hde]
        simp [toDataBone, expectedBone]
  cases objOk with
  | false =>
    simp [hR, expectedBone, renameDef_self, List.map_map, Function.comp]
  | true =>
    rw [if_pos rfl]
    rw [foldl_setDataLayers_id layer _ _ hcond]
    simp [hR, expectedBone, renameDef_self, List.map_map, Function.comp]


/-- C1, counterexample: source subtree A (parented to R) with child B, copied
into a destination holding only P, with the root renamed to A2 and reparented
to P.  The serialized definitions record B's source parent as A (the source
topology), but in the destination B's recorded parent name A resolves to
nothing — the root was created under the name A2 — so B is left with no
parent, against the claim that every created non-root bone's parent matches
the source topology. -/
theorem c1_copy_subtree_counterexample :
    ((copy_rl_edit_bone_subtree true true true idMat
        (some (.node "A" v0 vZ 1 1 0 sampleForest, some "R")) sampleDst
        "A" "A2" "P" 5).toOption.map
      (fun r => r.2.edit_bones.map (fun b => (b.name, b.parent))))
      = some [("P", none), ("A2", some "P"), ("B", none)]
    ∧ (subtreeDefs idMat (.node "A" v0 vZ 1 1 0 sampleForest) "R").map
        (fun d => (d.name, d.parent_name)) = [("A", "R"), ("B", "A")] := by
  decide

/-- C1, amended: under the claim's preconditions (source root found with a
parent, both mode switches granted) together with the armature naming
invariants of the scenario (unique nonempty source bone names, no name
collisions with the destination, destination parent present, the new root
name fresh), the copy creates exactly one destination bone per serialized
record: the full result is given by the equation below, in which every
non-root bone whose recorded source parent is not the renamed source root
gets exactly that bone as parent (source topology), every non-root bone
recorded as a child of the source root is left with NO parent (its recorded
parent name no longer resolves after the rename — the correction forced by
the counterexample), and the copied root's parent is forced to the
caller-supplied destination parent. -/
theorem c1_copy_subtree_amended (objOk : Bool) (world : Mat34)
    (n : String) (h0 t0 : V3) (hr0 tr0 rl0 : ℚ) (cs : BoneForest) (rootPar : String)
    (dst : DstRig) (dst_name dst_parent_name : String) (layer : Nat)
    (hnd : ((subtreeDefs world (.node n h0 t0 hr0 tr0 rl0 cs) rootPar).map
        BoneDef.name).Nodup)
    (hfr : ∀ s ∈ (subtreeDefs world (.node n h0 t0 hr0 tr0 rl0 cs) rootPar).map
        BoneDef.name, renameDef n dst_name s ∉ ebNames dst.edit_bones)
    (hpe : ∀ s ∈ (subtreeDefs world (.node n h0 t0 hr0 tr0 rl0 cs) rootPar).map
        BoneDef.name, s ≠ "")
    (hdn : dst_name ∉ (subtreeDefs world (.node n h0 t0 hr0 tr0 rl0 cs) rootPar).map
        BoneDef.name)
    (hcc3 : n ∉ ebNames dst.edit_bones)
    (hpar : dst_parent_name ∈ ebNames dst.edit_bones)
    (hne : dst_name ≠ n)
    (hdne : dst_name ≠ "")
    (hpne : dst_parent_name ≠ "") :
    (copy_rl_edit_bone_subtree true true objOk world
        (some (.node n h0 t0 hr0 tr0 rl0 cs, some rootPar)) dst n dst_name
        dst_parent_name layer
      = .ok (some ((subtreeDefs world (.node n h0 t0 hr0 tr0 rl0 cs) rootPar).map
            (fun d => (d, some (renameDef n dst_name d.name)))),
          ⟨dst.edit_bones ++
              ({ expectedBone n dst_name layer
                   ⟨n, world.apply h0, world.apply t0, hr0, tr0, rl0, rootPar⟩ with
                   parent := some dst_parent_name }
                :: (subtreeForestDefs world cs n).map (expectedBone n dst_name layer)),
            if objOk then
              (dst.edit_bones ++
                ({ expectedBone n dst_name layer
                     ⟨n, world.apply h0, world.apply t0, hr0, tr0, rl0, rootPar⟩ with
                     parent := some dst_parent_name }
                  :: (subtreeForestDefs world cs n).map
                    (expectedBone n dst_name layer))).map toDataBone
            else dst.data_bones⟩)) ∧
    ({ expectedBone n dst_name layer
         ⟨n, world.apply h0, world.apply t0, hr0, tr0, rl0, rootPar⟩ with
         parent := some dst_parent_name }
        :: (subtreeForestDefs world cs n).map (expectedBone n dst_name layer)).length
      = (subtreeDefs world (.node n h0 t0 hr0 tr0 rl0 cs) rootPar).length ∧
    (∀ d ∈ subtreeForestDefs world cs n,
      (expectedBone n dst_name layer d).parent
        = if (d.parent_name == n) = true then none else some d.parent_name) := by
  refine ⟨copy_subtree_master objOk world n h0 t0 hr0 tr0 rl0 cs rootPar dst dst_name
      dst_parent_name layer hnd hfr hpe hdn hcc3 hpar hne hdne hpne, ?_, ?_⟩
  · rw [show subtreeDefs world (.node n h0 t0 hr0 tr0 rl0 cs) rootPar
      = (⟨n, world.apply h0, world.apply t0, hr0, tr0, rl0, rootPar⟩ : BoneDef)
        :: subtreeForestDefs world cs n from rfl]
    simp
  · intro d _
    rfl

/-- C1 witness: the amended theorem at the concrete two-bone sample subtree
(A with child B, renamed to A2, reparented under P, layer 5). -/
theorem c1_copy_subtree_amended_witness :
    (((subtreeDefs idMat (.node "A" v0 vZ 1 1 0 sampleForest) "R").map
        BoneDef.name).Nodup ∧
      (∀ s ∈ (subtreeDefs idMat (.node "A" v0 vZ 1 1 0 sampleForest) "R").map
        BoneDef.name, renameDef "A" "A2" s ∉ ebNames sampleDst.edit_bones) ∧
      (∀ s ∈ (subtreeDefs idMat (.node "A" v0 vZ 1 1 0 sampleForest) "R").map
        BoneDef.name, s ≠ "") ∧
      ("A2" ∉ (subtreeDefs idMat (.node "A" v0 vZ 1 1 0 sampleForest) "R").map
        BoneDef.name) ∧
      ("A" ∉ ebNames sampleDst.edit_bones) ∧
      ("P" ∈ ebNames sampleDst.edit_bones) ∧
      ("A2" ≠ "A") ∧ ("A2" ≠ "") ∧ ("P" ≠ "")) ∧
    ((copy_rl_edit_bone_subtree true true true idMat
        (some (.node "A" v0 vZ 1 1 0 sampleForest, some "R")) sampleDst "A" "A2" "P" 5
      = .ok (some ((subtreeDefs idMat (.node "A" v0 vZ 1 1 0 sampleForest) "R").map
            (fun d => (d, some (renameDef "A" "A2" d.name)))),
          ⟨sampleDst.edit_bones ++
              ({ expectedBone "A" "A2" 5
                   ⟨"A", idMat.apply v0, idMat.apply vZ, 1, 1, 0, "R"⟩ with
                   parent := some "P" }
                :: (subtreeForestDefs idMat sampleForest "A").map (expectedBone "A" "A2" 5)),
            if true then
              (sampleDst.edit_bones ++
                ({ expectedBone "A" "A2" 5
                     ⟨"A", idMat.apply v0, idMat.apply vZ, 1, 1, 0, "R"⟩ with
                     parent := some "P" }
                  :: (subtreeForestDefs idMat sampleForest "A").map
                    (expectedBone "A" "A2" 5))).map toDataBone
            else sampleDst.data_bones⟩)) ∧
    ({ expectedBone "A" "A2" 5
         ⟨"A", idMat.apply v0, idMat.apply vZ, 1, 1, 0, "R"⟩ with
         parent := some "P" }
        :: (subtreeForestDefs idMat sampleForest "A").map (expectedBone "A" "A2" 5)).length
      = (subtreeDefs idMat (.node "A" v0 vZ 1 1 0 sampleForest) "R").length ∧
    (∀ d ∈ subtreeForestDefs idMat sampleForest "A",
      (expectedBone "A" "A2" 5 d).parent
        = if (d.parent_name == "A") = true then none else some d.parent_name)) :=
  ⟨⟨by decide, by decide, by decide, by decide, by decide, by decide, by decide,
    by decide, by decide⟩,
   c1_copy_subtree_amended true idMat "A" v0 vZ 1 1 0 sampleForest "R" sampleDst
     "A2" "P" 5 (by decide) (by decide) (by decide) (by decide) (by decide)
     (by decide) (by decide) (by decide) (by decide)⟩

theorem count_oneHot_range (layer k : Nat) :
    ((List.range k).map (fun l => l == layer)).count true
      = if layer < k then 1 else 0 := by
  induction k with
  | zero => simp
  | succ k ih =>
    rw [show k + 1 = Nat.succ k from rfl, List.range_succ, List.map_append,
      List.count_append, ih]
    rcases Nat.lt_trichotomy layer k with hlt | heq | hgt
    · have hb : (k == layer) = false := beq_eq_false_iff_ne.mpr (by omega)
      have h2 : layer < k + 1 := by omega
      simp [hb, hlt, h2]
    · have hb : (k == layer) = true := by simp [heq]
      have h1 : ¬ layer < k := by omega
      have h2 : layer < k + 1 := by omega
      simp [hb, h1, h2]
    · have hb : (k == layer) = false := beq_eq_false_iff_ne.mpr (by omega)
      have h1 : ¬ layer < k := by omega
      have h2 : ¬ layer < k + 1 := by omega
      simp [hb, h1, h2]

theorem oneHot32_length (layer : Nat) : (oneHot32 layer).length = 32 := by
  simp [oneHot32]

theorem oneHot32_count (layer : Nat) (h : layer < 32) :
    (oneHot32 layer).count true = 1 := by
  unfold oneHot32
  rw [count_oneHot_range]
  simp [h]

theorem oneHot32_get (layer : Nat) (h : layer < 32) :
    (oneHot32 layer)[layer]? = some true := by
  unfold oneHot32
  rw [List.getElem?_map]
  rw [List.getElem?_range h]
  simp

/-- C8: after a successful subtree copy with a layer index in 0..31 (and the
same collision-free naming scenario as the amended C1), the result is the
equation below, and every created bone — the renamed root and each copied
descendant — has exactly one of its 32 layer flags true, at the requested
index; the same holds on the object-mode data-bone representation (every
data bone carrying a created name has the same single flag). -/
theorem c8_copy_subtree_layers (objOk : Bool) (world : Mat34)
    (n : String) (h0 t0 : V3) (hr0 tr0 rl0 : ℚ) (cs : BoneForest) (rootPar : String)
    (dst : DstRig) (dst_name dst_parent_name : String) (layer : Nat)
    (hnd : ((subtreeDefs world (.node n h0 t0 hr0 tr0 rl0 cs) rootPar).map
        BoneDef.name).Nodup)
    (hfr : ∀ s ∈ (subtreeDefs world (.node n h0 t0 hr0 tr0 rl0 cs) rootPar).map
        BoneDef.name, renameDef n dst_name s ∉ ebNames dst.edit_bones)
    (hpe : ∀ s ∈ (subtreeDefs world (.node n h0 t0 hr0 tr0 rl0 cs) rootPar).map
        BoneDef.name, s ≠ "")
    (hdn : dst_name ∉ (subtreeDefs world (.node n h0 t0 hr0 tr0 rl0 cs) rootPar).map
        BoneDef.name)
    (hcc3 : n ∉ ebNames dst.edit_bones)
    (hpar : dst_parent_name ∈ ebNames dst.edit_bones)
    (hne : dst_name ≠ n)
    (hdne : dst_name ≠ "")
    (hpne : dst_parent_name ≠ "")
    (hlayer : layer < 32) :
    (copy_rl_edit_bone_subtree true true objOk world
        (some (.node n h0 t0 hr0 tr0 rl0 cs, some rootPar)) dst n dst_name
        dst_parent_name layer
      = .ok (some ((subtreeDefs world (.node n h0 t0 hr0 tr0 rl0 cs) rootPar).map
            (fun d => (d, some (renameDef n dst_name d.name)))),
          ⟨dst.edit_bones ++
              ({ expectedBone n dst_name layer
                   ⟨n, world.apply h0, world.apply t0, hr0, tr0, rl0, rootPar⟩ with
                   parent := some dst_parent_name }
                :: (subtreeForestDefs world cs n).map (expectedBone n dst_name layer)),
            if objOk then
              (dst.edit_bones ++
                ({ expectedBone n dst_name layer
                     ⟨n, world.apply h0, world.apply t0, hr0, tr0, rl0, rootPar⟩ with
                     parent := some dst_parent_name }
                  :: (subtreeForestDefs world cs n).map
                    (expectedBone n dst_name layer))).map toDataBone
            else dst.data_bones⟩)) ∧
    (∀ b ∈ ({ expectedBone n dst_name layer
          ⟨n, world.apply h0, world.apply t0, hr0, tr0, rl0, rootPar⟩ with
          parent := some dst_parent_name }
        :: (subtreeForestDefs world cs n).map (expectedBone n dst_name layer)),
      b.layers.length = 32 ∧ b.layers.count true = 1
        ∧ b.layers[layer]? = some true) ∧
    (∀ db ∈ (dst.edit_bones ++
        ({ expectedBone n dst_name layer
             ⟨n, world.apply h0, world.apply t0, hr0, tr0, rl0, rootPar⟩ with
             parent := some dst_parent_name }
          :: (subtreeForestDefs world cs n).map
            (expectedBone n dst_name layer))).map toDataBone,
      db.name ∈ (subtreeDefs world (.node n h0 t0 hr0 tr0 rl0 cs) rootPar).map
          (fun d => renameDef n dst_name d.name) →
      db.layers.length = 32 ∧ db.layers.count true = 1
        ∧ db.layers[layer]? = some true) := by
  refine ⟨copy_subtree_master objOk world n h0 t0 hr0 tr0 rl0 cs rootPar dst dst_name
      dst_parent_name layer hnd hfr hpe hdn hcc3 hpar hne hdne hpne, ?_, ?_⟩
  · intro b hb
    rcases List.mem_cons.mp hb with h | h
    · rw [h]
      exact ⟨oneHot32_length layer, oneHot32_count layer hlayer,
        oneHot32_get layer hlayer⟩
    · obtain ⟨d, _, hde⟩ := List.mem_map.mp h
      rw [← hde]
      exact ⟨oneHot32_length layer, oneHot32_count layer hlayer,
        oneHot32_get layer hlayer⟩
  · intro db hdb hnm
    obtain ⟨b, hbmem, hbeq⟩ := List.mem_map.mp hdb
    rcases List.mem_append.mp hbmem with hbm | hbm
    · exfalso
      obtain ⟨d, hdm, hdeq⟩ := List.mem_map.mp hnm
      apply hfr d.name (List.mem_map_of_mem _ hdm)
      rw [hdeq, ← hbeq]
      exact List.mem_map_of_mem _ hbm
    · rcases List.mem_cons.mp hbm with h | h
      · rw [← hbeq, h]
        exact ⟨oneHot32_length layer, oneHot32_count layer hlayer,
          oneHot32_get layer hlayer⟩
      · obtain ⟨d, _, hde⟩ := List.mem_map.mp h
        rw [← hbeq, ← hde]
        exact ⟨oneHot32_length layer, oneHot32_count layer hlayer,
          oneHot32_get layer hlayer⟩

/-- C8 witness: the layer theorem at the concrete sample copy (layer 5). -/
theorem c8_copy_subtree_layers_witness :
    (((subtreeDefs idMat (.node "A" v0 vZ 1 1 0 sampleForest) "R").map
        BoneDef.name).Nodup ∧ (5 : Nat) < 32) ∧
    ((copy_rl_edit_bone_subtree true true true idMat
        (some (.node "A" v0 vZ 1 1 0 sampleForest, some "R")) sampleDst "A" "A2" "P" 5
      = .ok (some ((subtreeDefs idMat (.node "A" v0 vZ 1 1 0 sampleForest) "R").map
            (fun d => (d, some (renameDef "A" "A2" d.name)))),
          ⟨sampleDst.edit_bones ++
              ({ expectedBone "A" "A2" 5
                   ⟨"A", idMat.apply v0, idMat.apply vZ, 1, 1, 0, "R"⟩ with
                   parent := some "P" }
                :: (subtreeForestDefs idMat sampleForest "A").map
                  (expectedBone "A" "A2" 5)),
            if true then
              (sampleDst.edit_bones ++
                ({ expectedBone "A" "A2" 5
                     ⟨"A", idMat.apply v0, idMat.apply vZ, 1, 1, 0, "R"⟩ with
                     parent := some "P" }
                  :: (subtreeForestDefs idMat sampleForest "A").map
                    (expectedBone "A" "A2" 5))).map toDataBone
            else sampleDst.data_bones⟩)) ∧
    (∀ b ∈ ({ expectedBone "A" "A2" 5
          ⟨"A", idMat.apply v0, idMat.apply vZ, 1, 1, 0, "R"⟩ with
          parent := some "P" }
        :: (subtreeForestDefs idMat sampleForest "A").map (expectedBone "A" "A2" 5)),
      b.layers.length = 32 ∧ b.layers.count true = 1 ∧ b.layers[5]? = some true) ∧
    (∀ db ∈ (sampleDst.edit_bones ++
        ({ expectedBone "A" "A2" 5
             ⟨"A", idMat.apply v0, idMat.apply vZ, 1, 1, 0, "R"⟩ with
             parent := some "P" }
          :: (subtreeForestDefs idMat sampleForest "A").map
            (expectedBone "A" "A2" 5))).map toDataBone,
      db.name ∈ (subtreeDefs idMat (.node "A" v0 vZ 1 1 0 sampleForest) "R").map
          (fun d => renameDef "A" "A2" d.name) →
      db.layers.length = 32 ∧ db.layers.count true = 1
        ∧ db.layers[5]? = some true)) :=
  ⟨⟨by decide, by decide⟩,
   c8_copy_subtree_layers true idMat "A" v0 vZ 1 1 0 sampleForest "R" sampleDst
     "A2" "P" 5 (by decide) (by decide) (by decide) (by decide) (by decide)
     (by decide) (by decide) (by decide) (by decide) (by decide)⟩
